import Mathlib

/-!
Verification of the `conform_body` / `expand_veo_error` transforms of the
`opal-backend-shared` package (a Python port of Breadboard's TypeScript
`conformBody`).  The Python sources are embedded shallowly: Python dicts
become association lists over a JSON-like value type, `async` HTTP uploads
become an oracle parameter, and exceptions become `Except` errors.
-/

namespace Breadboard

/-- Python strings are modelled as lists of unicode scalar values. -/
abbrev Str := List Char

/-- Coerce a Lean string literal to the model's string type. -/
def S (s : String) : Str := s.data

/-- Model of Python's `str.startswith`: does `s` start with `pat`? -/
def startsWithStr : Str → Str → Bool
  | _, [] => true
  | [], _ :: _ => false
  | c :: s, p :: ps => c == p && startsWithStr s ps

/-- Model of Python's `pat in s` substring test. -/
def containsStr : Str → Str → Bool
  | [], pat => pat.isEmpty
  | c :: t, pat => startsWithStr (c :: t) pat || containsStr t pat

/-- Strip all leading `/` characters (Python `lstrip('/')`, and the `/+` part
of the drive-scheme pattern). -/
def dropLeadingSlashes (s : Str) : Str := s.dropWhile (fun c => c == '/')

/-- JSON-like values: the payloads of a Gemini request body.  Python `float`
values are outside the model (the conform transform never constructs them);
object entries keep Python's dict insertion order. -/
inductive JValue where
  | null
  | bool (b : Bool)
  | num (n : Int)
  | str (s : Str)
  | arr (elems : List JValue)
  | obj (entries : List (Str × JValue))

/-- A Python dict with string keys, in insertion order. -/
abbrev PyDict := List (Str × JValue)

/-- Python `d.get(k)` / `k in d`: the first entry with the given key. -/
def dictGet : PyDict → Str → Option JValue
  | [], _ => none
  | (k, v) :: rest, key => if k = key then some v else dictGet rest key

/-- Python `\x7b**d, key: v\x7d`: replace the value in place if the key is
present, else append the new entry. -/
def dictSet : PyDict → Str → JValue → PyDict
  | [], key, v => [(key, v)]
  | (k, w) :: rest, key, v =>
      if k = key then (key, v) :: rest else (k, w) :: dictSet rest key v

/-- Python truthiness of a JSON-like value (`if not contents: ...`). -/
def pyFalsy : JValue → Bool
  | .null => true
  | .bool b => !b
  | .num n => n == 0
  | .str s => s.isEmpty
  | .arr xs => xs.isEmpty
  | .obj kvs => kvs.isEmpty

/-! Constants from `conform_body.py`.  Note `GENAI_FILES_PREFIX` is built by
an f-string as `f"\x7bGENAI_API_BASE\x7d/files/"` although `GENAI_API_BASE`
already ends in a slash, so it contains `v1beta//files/` with two slashes. -/

/-- Constant `GENAI_API_BASE` from `conform_body.py`. -/
def genaiApiBase : Str := S "https://generativelanguage.googleapis.com/v1beta/"

/-- Constant `GENAI_FILES_PREFIX` from `conform_body.py` (the f-string
concatenation keeps the double slash). -/
def genaiFilesBase : Str := genaiApiBase ++ S "/files/"

/-- Constant `DRIVE_URL_PREFIX` from `conform_body.py`. -/
def driveScheme : Str := S "drive:"

/-- Constant `NOTEBOOKLM_URL_PREFIX` from `conform_body.py`. -/
def nlmBase : Str := S "https://notebooklm.google.com/notebook/"

/-- Python `_DRIVE_PREFIX_RE.sub("", h)` with pattern `^drive:/+`: when `h`
starts with `drive:` followed by at least one slash, drop the scheme and all
leading slashes; otherwise the string is unchanged. -/
def stripDriveScheme (h : Str) : Str :=
  if startsWithStr h (S "drive:/") then dropLeadingSlashes (h.drop 6) else h

/-- Lowercase-hex test used by the blob UUID pattern (class `[0-9a-f]`). -/
def isHexLower (c : Char) : Bool := ('0' ≤ c && c ≤ '9') || ('a' ≤ c && c ≤ 'f')

/-- Consume exactly `n` lowercase-hex characters, returning the rest. -/
def hexRun : Nat → Str → Option Str
  | 0, s => some s
  | _ + 1, [] => none
  | n + 1, c :: s => if isHexLower c then hexRun n s else none

/-- Consume one expected literal character. -/
def expectChar (c : Char) : Str → Option Str
  | [] => none
  | d :: s => if d = c then some s else none

/-- Consume a canonical 36-character hyphenated lowercase UUID
(`8-4-4-4-12` hex groups), returning the rest. -/
def uuidRun (u : Str) : Option Str :=
  (hexRun 8 u).bind fun s1 =>
  (expectChar '-' s1).bind fun s2 =>
  (hexRun 4 s2).bind fun s3 =>
  (expectChar '-' s3).bind fun s4 =>
  (hexRun 4 s4).bind fun s5 =>
  (expectChar '-' s5).bind fun s6 =>
  (hexRun 4 s6).bind fun s7 =>
  (expectChar '-' s7).bind fun s8 =>
  hexRun 12 s8

/-- End-of-pattern test for the UUID: Python's `$` also matches just before a
single trailing newline. -/
def uuidAtEnd (u : Str) : Bool :=
  match uuidRun u with
  | some [] => true
  | some ['\n'] => true
  | some _ => false
  | none => false

/-- Does `r` consist of the literal `/board/blobs/` followed by a UUID at the
end of the pattern? -/
def blobSuffixHere (r : Str) : Bool :=
  startsWithStr r (S "/board/blobs/") && uuidAtEnd (r.drop 13)

/-- Scan for the regex tail `.+/board/blobs/<uuid>$`: at least one non-newline
character (`.` does not match newlines), then the blob suffix. -/
def blobScan : Str → Bool
  | [] => false
  | c :: rest => !(c == '\n') && (blobSuffixHere rest || blobScan rest)

/-- Consume the `https?://` part of the blob pattern. -/
def stripHttpScheme (s : Str) : Option Str :=
  if startsWithStr s (S "https://") then some (s.drop 8)
  else if startsWithStr s (S "http://") then some (s.drop 7)
  else none

/-- Model of `_BLOB_UUID_RE.match(s)` succeeding, for the anchored pattern
`^https?://.+/board/blobs/<uuid>$` (case-sensitive: no `IGNORECASE` flag). -/
def blobMatches (s : Str) : Bool :=
  match stripHttpScheme s with
  | some r => blobScan r
  | none => false

/-- Python `s.rsplit("/", 1)[-1]`: everything after the last slash (the whole
string when it has no slash). -/
def lastSlashSegment (s : Str) : Str :=
  (s.reverse.takeWhile (fun c => c != '/')).reverse

/-- Port of `_maybe_blob`: the blob UUID of a blob-store URL, or `none`. -/
def maybeBlob (h : Str) : Option Str :=
  if blobMatches h then some (lastSlashSegment h) else none

/-- Python exceptions escaping `conform_body`: `ValueError` with a message,
`httpx.HTTPStatusError` from a failed upload, and the class of runtime type
errors (`TypeError` / `AttributeError`) raised on non-dict payloads. -/
inductive ConformError where
  | valueError (msg : Str)
  | httpStatusError
  | typeError

/-- Message of the `ValueError` raised for an unrecognized `storedData`
handle (the f-string wraps the handle in double quotes). -/
def unknownStoredDataMsg (handle : Str) : Str :=
  S "Unknown storedData handle: \"" ++ handle ++ S "\""

/-- Message of the `ValueError` raised for an unrecognized `fileData` URI. -/
def unknownFileDataMsg (uri : Str) : Str :=
  S "Unknown fileData URI: \"" ++ uri ++ S "\""

/-- The JSON body of a successful `/v1beta1/uploadGeminiFile` response, after
`data.get("fileUrl", "")` / `data.get("mimeType", "")`. -/
structure UploadResponse where
  fileUrl : Str
  mimeType : Str

/-- The HTTP upload call of `_upload_gemini_file` (POST, `raise_for_status`,
JSON decode), abstracted as an oracle from the request body to a response or
an HTTP error. -/
abbrev UploadOracle := PyDict → Except ConformError UploadResponse

/-- The absolutization step of `_upload_gemini_file`: a non-empty `fileUrl`
not starting with `"http"` is treated as relative and prefixed with
`GENAI_API_BASE` after stripping all leading slashes. -/
def absolutizeFileUrl (fileUrl : Str) : Str :=
  if !fileUrl.isEmpty && !startsWithStr fileUrl (S "http") then
    genaiApiBase ++ dropLeadingSlashes fileUrl
  else fileUrl

/-- Port of `_upload_gemini_file`: call the upload endpoint and wrap the
(absolutized) file URL in a `fileData` part. -/
def uploadGeminiFile (up : UploadOracle) (request : PyDict) :
    Except ConformError JValue := do
  let resp ← up request
  .ok (.obj [(S "fileData", .obj
    [(S "fileUri", .str (absolutizeFileUrl resp.fileUrl)),
     (S "mimeType", .str resp.mimeType)])])

/-- Python `d.get(k, "")` followed by a string method call: a missing key
yields `""`, a string value is returned, and any other value raises when the
string method is applied (`AttributeError`). -/
def getStrField (d : PyDict) (k : Str) : Except ConformError Str :=
  match dictGet d k with
  | none => .ok (S "")
  | some (.str s) => .ok s
  | some _ => .error .typeError

/-- Python `v == "..."` equality against a string literal: false for values
of any other type. -/
def isStrEq (v : JValue) (s : Str) : Bool :=
  match v with
  | .str t => t == s
  | _ => false

/-! Model of `json.dumps` with its default options (`ensure_ascii=True`,
separators `", "` and `": "`, insertion-ordered keys). -/

/-- Decimal digit characters. -/
def digitChar : Nat → Char
  | 0 => '0' | 1 => '1' | 2 => '2' | 3 => '3' | 4 => '4'
  | 5 => '5' | 6 => '6' | 7 => '7' | 8 => '8' | _ => '9'

/-- Fuel-indexed decimal printer (most significant digit first). -/
def natDigitsAux : Nat → Nat → Str
  | 0, _ => []
  | fuel + 1, n =>
      if n < 10 then [digitChar n]
      else natDigitsAux fuel (n / 10) ++ [digitChar (n % 10)]

/-- Decimal representation of a natural number, as Python's `repr`. -/
def natDigits (n : Nat) : Str := natDigitsAux (n + 1) n

/-- Python `repr` of an `int` (used by `json.dumps` for numbers). -/
def intDigits : Int → Str
  | .ofNat n => natDigits n
  | .negSucc m => '-' :: natDigits (m + 1)

/-- Lowercase hexadecimal digit characters (as `"%04x"` formatting). -/
def hexDigitChar : Nat → Char
  | 0 => '0' | 1 => '1' | 2 => '2' | 3 => '3' | 4 => '4'
  | 5 => '5' | 6 => '6' | 7 => '7' | 8 => '8' | 9 => '9'
  | 10 => 'a' | 11 => 'b' | 12 => 'c' | 13 => 'd' | 14 => 'e' | _ => 'f'

/-- Four-digit lowercase hex rendering of a value below `0x10000`. -/
def hex4 (n : Nat) : Str :=
  [hexDigitChar (n / 4096 % 16), hexDigitChar (n / 256 % 16),
   hexDigitChar (n / 16 % 16), hexDigitChar (n % 16)]

/-- Per-character escaping of `json.dumps` with `ensure_ascii=True`: the
two-character escapes, printable ASCII kept literal, everything else as
`\uXXXX` (with surrogate pairs above `0xFFFF`). -/
def escapeChar (c : Char) : Str :=
  let n := c.toNat
  if c = '"' then ['\\', '"']
  else if c = '\\' then ['\\', '\\']
  else if c = '\n' then ['\\', 'n']
  else if c = '\r' then ['\\', 'r']
  else if c = '\t' then ['\\', 't']
  else if n = 8 then ['\\', 'b']
  else if n = 12 then ['\\', 'f']
  else if 32 ≤ n ∧ n ≤ 126 then [c]
  else if n < 65536 then '\\' :: 'u' :: hex4 n
  else
    ('\\' :: 'u' :: hex4 (55296 + (n - 65536) / 1024)) ++
    ('\\' :: 'u' :: hex4 (56320 + (n - 65536) % 1024))

/-- Escape every character of a string body. -/
def escapeStr : Str → Str
  | [] => []
  | c :: cs => escapeChar c ++ escapeStr cs

mutual

/-- Model of `json.dumps` with default options, over the float-free value
model. -/
def dumps : JValue → Str
  | .null => S "null"
  | .bool true => S "true"
  | .bool false => S "false"
  | .num n => intDigits n
  | .str s => '"' :: (escapeStr s ++ ['"'])
  | .arr xs => '[' :: (dumpsElems xs ++ [']'])
  | .obj kvs => '{' :: (dumpsEntries kvs ++ ['}'])

/-- Array elements joined by the default `", "` separator. -/
def dumpsElems : List JValue → Str
  | [] => []
  | [x] => dumps x
  | x :: y :: xs => dumps x ++ (S ", " ++ dumpsElems (y :: xs))

/-- Object entries joined by `", "`, each rendered `"key": value`. -/
def dumpsEntries : List (Str × JValue) → Str
  | [] => []
  | [(k, v)] => '"' :: (escapeStr k ++ ('"' :: (S ": " ++ dumps v)))
  | (k, v) :: e :: kvs =>
      ('"' :: (escapeStr k ++ ('"' :: (S ": " ++ dumps v)))) ++
      (S ", " ++ dumpsEntries (e :: kvs))

end

/-- The Python for-loop over parts/contents inside `Except`: transform each
element in order, aborting at the first raised error. -/
def mapME (f : α → Except ConformError β) : List α → Except ConformError (List β)
  | [] => .ok []
  | x :: xs => (f x).bind fun y => (mapME f xs).bind fun ys => .ok (y :: ys)

/-- Port of `_transform_part`: probe `json`, then `storedData`, then
`fileData`, falling through to passthrough.  Non-dict parts mirror Python's
duck typing: membership on a string is a substring test (followed by a
`TypeError` on indexing), membership on a list compares elements, and other
types raise. -/
def transformPart (up : UploadOracle) (part : JValue) :
    Except ConformError JValue :=
  match part with
  | .obj p =>
    match dictGet p (S "json") with
    | some jv => .ok (.obj [(S "text", .str (dumps jv))])
    | none =>
      match dictGet p (S "storedData") with
      | some (.obj sd) =>
          (getStrField sd (S "handle")).bind fun handle =>
          if startsWithStr handle nlmBase then
            .ok (.obj [(S "text", .str handle)])
          else if startsWithStr handle driveScheme then
            uploadGeminiFile up [(S "driveFileId", .str (stripDriveScheme handle))]
          else
            match maybeBlob handle with
            | some blobId =>
                if blobId.isEmpty then
                  .error (.valueError (unknownStoredDataMsg handle))
                else uploadGeminiFile up [(S "blobId", .str blobId)]
            | none => .error (.valueError (unknownStoredDataMsg handle))
      | some _ => .error .typeError
      | none =>
        match dictGet p (S "fileData") with
        | some (.obj fd) =>
            (getStrField fd (S "fileUri")).bind fun fileUri =>
            let mimeVal := (dictGet fd (S "mimeType")).getD (.str (S ""))
            if startsWithStr fileUri genaiFilesBase then .ok part
            else if isStrEq mimeVal (S "video/mp4") then .ok part
            else if startsWithStr fileUri driveScheme then
              let req := [(S "driveFileId", .str (stripDriveScheme fileUri))]
              let req := match dictGet fd (S "resourceKey") with
                | some rk => if pyFalsy rk then req
                             else req ++ [(S "driveResourceKey", rk)]
                | none => req
              uploadGeminiFile up req
            else .error (.valueError (unknownFileDataMsg fileUri))
        | some _ => .error .typeError
        | none => .ok part
  | .str s =>
      if containsStr s (S "json") then .error .typeError
      else if containsStr s (S "storedData") then .error .typeError
      else if containsStr s (S "fileData") then .error .typeError
      else .ok part
  | .arr xs =>
      if xs.any (fun v => isStrEq v (S "json")) then .error .typeError
      else if xs.any (fun v => isStrEq v (S "storedData")) then .error .typeError
      else if xs.any (fun v => isStrEq v (S "fileData")) then .error .typeError
      else .ok part
  | _ => .error .typeError

/-- One content record of `conform_body`'s loop: contents without (truthy)
parts pass through; otherwise the parts are transformed and spliced back with
`\x7b**content, "parts": new_parts\x7d`.  Iterating a string yields its
characters and iterating a dict yields its keys, as in Python. -/
def transformContent (up : UploadOracle) (content : JValue) :
    Except ConformError JValue :=
  match content with
  | .obj c =>
    match dictGet c (S "parts") with
    | none => .ok content
    | some pv =>
      if pyFalsy pv then .ok content
      else
        match pv with
        | .arr parts =>
            (mapME (transformPart up) parts).bind fun newParts =>
            .ok (.obj (dictSet c (S "parts") (.arr newParts)))
        | .str s =>
            (mapME (transformPart up) (s.map (fun ch => JValue.str [ch]))).bind
              fun newParts =>
            .ok (.obj (dictSet c (S "parts") (.arr newParts)))
        | .obj kvs =>
            (mapME (transformPart up) (kvs.map (fun kv => JValue.str kv.1))).bind
              fun newParts =>
            .ok (.obj (dictSet c (S "parts") (.arr newParts)))
        | _ => .error .typeError
  | _ => .error .typeError

/-- Port of `conform_body`: absent or falsy `contents` returns the body as
is, otherwise every content is transformed and the body is rebuilt with
`\x7b**body, "contents": transformed_contents\x7d`. -/
def conform_body (up : UploadOracle) (body : PyDict) :
    Except ConformError PyDict :=
  match dictGet body (S "contents") with
  | none => .ok body
  | some cv =>
    if pyFalsy cv then .ok body
    else
      match cv with
      | .arr cs =>
          (mapME (transformContent up) cs).bind fun cs2 =>
          .ok (dictSet body (S "contents") (.arr cs2))
      | _ => .error .typeError

/-! Model of `json.loads` (the decoder side of claim C9's round trip).
Whitespace handling, string escapes with surrogate pairs, and last-wins
duplicate-key dict construction follow Python; `float` results (fraction or
exponent parts, which the encoder never emits) are outside the model, as are
lone surrogates (not representable as unicode scalar values). -/

/-- Head test for a character predicate. -/
def headIs (p : Char → Bool) : Str → Bool
  | [] => false
  | c :: _ => p c

/-- Head test for a single expected character (reduces on a literal head even
when the tail is symbolic). -/
def headChar (c : Char) : Str → Bool
  | [] => false
  | d :: _ => d == c

/-- JSON whitespace accepted by the decoder. -/
def isWs (c : Char) : Bool := c == ' ' || c == '\t' || c == '\n' || c == '\r'

/-- Skip leading JSON whitespace. -/
def skipWs (s : Str) : Str := s.dropWhile isWs

/-- Value of one hex digit (both cases accepted, as `int(s, 16)`). -/
def hexVal (c : Char) : Option Nat :=
  if '0' ≤ c && c ≤ '9' then some (c.toNat - 48)
  else if 'a' ≤ c && c ≤ 'f' then some (c.toNat - 87)
  else if 'A' ≤ c && c ≤ 'F' then some (c.toNat - 55)
  else none

/-- Parse exactly four hex digits. -/
def parseHex4 : Str → Option (Nat × Str)
  | a :: b :: c :: d :: rest =>
      (hexVal a).bind fun va =>
      (hexVal b).bind fun vb =>
      (hexVal c).bind fun vc =>
      (hexVal d).bind fun vd =>
      some (((va * 16 + vb) * 16 + vc) * 16 + vd, rest)
  | _ => none

/-- Parse the character following a backslash in a JSON string, combining
surrogate pairs as Python's decoder does. -/
def parseEscape : Str → Option (Char × Str)
  | [] => none
  | e :: rest =>
      if e = '"' then some ('"', rest)
      else if e = '\\' then some ('\\', rest)
      else if e = '/' then some ('/', rest)
      else if e = 'b' then some (Char.ofNat 8, rest)
      else if e = 'f' then some (Char.ofNat 12, rest)
      else if e = 'n' then some ('\n', rest)
      else if e = 'r' then some ('\r', rest)
      else if e = 't' then some ('\t', rest)
      else if e = 'u' then
        (parseHex4 rest).bind fun nr =>
        if 55296 ≤ nr.1 ∧ nr.1 ≤ 56319 then
          match nr.2 with
          | '\\' :: 'u' :: r2 =>
              (parseHex4 r2).bind fun mr =>
              if 56320 ≤ mr.1 ∧ mr.1 ≤ 57343 then
                some (Char.ofNat (65536 + (nr.1 - 55296) * 1024 + (mr.1 - 56320)), mr.2)
              else none
          | _ => none
        else if 56320 ≤ nr.1 ∧ nr.1 ≤ 57343 then none
        else some (Char.ofNat nr.1, nr.2)
      else none

/-- Parse a JSON string body after the opening quote (fuel bounds the number
of characters); raw control characters are rejected as in strict mode. -/
def parseStringBody : Nat → Str → Option (Str × Str)
  | 0, _ => none
  | fuel + 1, s =>
      match s with
      | [] => none
      | c :: rest =>
          if c = '"' then some ([], rest)
          else if c = '\\' then
            (parseEscape rest).bind fun cr =>
            (parseStringBody fuel cr.2).bind fun br =>
            some (cr.1 :: br.1, br.2)
          else if c.toNat < 32 then none
          else
            (parseStringBody fuel rest).bind fun br =>
            some (c :: br.1, br.2)

/-- Numeric value of a decimal digit character. -/
def digitVal (c : Char) : Nat := c.toNat - 48

/-- Decimal value of a digit string (most significant first). -/
def digitsVal (ds : Str) : Nat := ds.foldl (fun a c => a * 10 + digitVal c) 0

/-- Parse the integer part of a JSON number (regex `0|[1-9]\d*`). -/
def parseNatPart : Str → Option (Nat × Str)
  | [] => none
  | c :: rest =>
      if c = '0' then some (0, rest)
      else if c.isDigit then
        some (digitsVal (c :: rest.takeWhile Char.isDigit),
              rest.dropWhile Char.isDigit)
      else none

/-- Does a fraction part (`.` plus a digit) follow?  Such numbers decode to
Python floats, which are outside the model. -/
def fracFollows : Str → Bool
  | [] => false
  | c :: rest => c == '.' && headIs Char.isDigit rest

/-- Does an exponent part (`e`/`E`, optional sign, a digit) follow? -/
def expFollows : Str → Bool
  | [] => false
  | e :: rest =>
      (e == 'e' || e == 'E') &&
      (match rest with
       | '-' :: d :: _ => d.isDigit
       | '+' :: d :: _ => d.isDigit
       | d :: _ => d.isDigit
       | [] => false)

/-- Parse a JSON integer (floats rejected as unrepresentable). -/
def parseNumber : Str → Option (Int × Str)
  | [] => none
  | c :: rest =>
      if c = '-' then
        (parseNatPart rest).bind fun nr =>
        if fracFollows nr.2 || expFollows nr.2 then none
        else some (-(nr.1 : Int), nr.2)
      else
        (parseNatPart (c :: rest)).bind fun nr =>
        if fracFollows nr.2 || expFollows nr.2 then none
        else some ((nr.1 : Int), nr.2)

/-- Python dict construction from parsed key/value pairs: last value wins,
first occurrence fixes the position. -/
def buildDict (kvs : List (Str × JValue)) : PyDict :=
  kvs.foldl (fun d kv => dictSet d kv.1 kv.2) []

/-- Parse one or more comma-separated array elements up to `]`, given a
parser for values. -/
def parseElemsWith (pv : Str → Option (JValue × Str)) :
    Nat → Str → Option (List JValue × Str)
  | 0, _ => none
  | fuel + 1, s =>
      (pv s).bind fun vr =>
      if headChar ',' (skipWs vr.2) then
        (parseElemsWith pv fuel ((skipWs vr.2).drop 1)).bind fun lr =>
        some (vr.1 :: lr.1, lr.2)
      else if headChar ']' (skipWs vr.2) then
        some ([vr.1], (skipWs vr.2).drop 1)
      else none

/-- Parse one or more comma-separated object members up to the closing
brace, given a parser for values. -/
def parseMembersWith (pv : Str → Option (JValue × Str)) :
    Nat → Str → Option (List (Str × JValue) × Str)
  | 0, _ => none
  | fuel + 1, s =>
      if headChar '"' (skipWs s) then
        (parseStringBody (((skipWs s).drop 1).length + 1)
            ((skipWs s).drop 1)).bind fun kr =>
        if headChar ':' (skipWs kr.2) then
          (pv ((skipWs kr.2).drop 1)).bind fun vr =>
          if headChar ',' (skipWs vr.2) then
            (parseMembersWith pv fuel ((skipWs vr.2).drop 1)).bind fun lr =>
            some ((kr.1, vr.1) :: lr.1, lr.2)
          else if headChar '}' (skipWs vr.2) then
            some ([(kr.1, vr.1)], (skipWs vr.2).drop 1)
          else none
        else none
      else none

/-- Consume an expected literal: succeeds exactly when the input starts with
the literal, returning the remainder. -/
def dropLit : Str → Str → Option Str
  | [], r => some r
  | _ :: _, [] => none
  | l :: ls, c :: r => if c = l then dropLit ls r else none

/-- Expect a literal tail (after its already-consumed first character),
yielding the given value. -/
def expectLit (lit : Str) (v : JValue) (r : Str) : Option (JValue × Str) :=
  (dropLit lit r).map fun r2 => (v, r2)

/-- Parse one JSON value (fuel bounds the nesting structure). -/
def parseValue : Nat → Str → Option (JValue × Str)
  | 0, _ => none
  | fuel + 1, s =>
      match skipWs s with
      | [] => none
      | c :: r =>
          if c = 'n' then expectLit (S "ull") .null r
          else if c = 't' then expectLit (S "rue") (.bool true) r
          else if c = 'f' then expectLit (S "alse") (.bool false) r
          else if c = '"' then
            (parseStringBody (r.length + 1) r).bind fun br =>
            some (.str br.1, br.2)
          else if c = '[' then
            (if headChar ']' (skipWs r) then
               some (.arr [], (skipWs r).drop 1)
             else
               (parseElemsWith (parseValue fuel) (r.length + 1) r).bind
                 fun lr =>
               some (.arr lr.1, lr.2))
          else if c = '{' then
            (if headChar '}' (skipWs r) then
               some (.obj [], (skipWs r).drop 1)
             else
               (parseMembersWith (parseValue fuel) (r.length + 1) r).bind
                 fun lr =>
               some (.obj (buildDict lr.1), lr.2))
          else
            (parseNumber (c :: r)).bind fun nr =>
            some (.num nr.1, nr.2)

/-- Model of `json.loads` on the float-free fragment: parse one value and
require only whitespace after it. -/
def loads (s : Str) : Option JValue :=
  (parseValue (s.length + 1) s).bind fun vr =>
  if (skipWs vr.2).isEmpty then some vr.1 else none

/-- A continuation string that cannot extend a just-parsed number: no leading
digit, fraction or exponent part (the separators `,`, `]`, `\x7d` and the end
of input all qualify). -/
def numBoundary (r : Str) : Bool :=
  !(headIs Char.isDigit r || fracFollows r || expFollows r)

/-! Embedding of `expand_veo_error` from `functions/video.py`. -/

/-- Errors escaping `expand_veo_error`: the `ValueError` raised by `int()`
on a malformed code token. -/
inductive VeoError where
  | valueError

/-- The literal marker of `_SUPPORT_CODE_RE`. -/
def scMarker : Str := S "Support codes: "

/-- The character class `[\d, ]` of `_SUPPORT_CODE_RE`. -/
def scClass (c : Char) : Bool := c.isDigit || c == ',' || c == ' '

/-- Model of `_SUPPORT_CODE_RE.search(s)`: the group of the leftmost match of
`Support codes: ([\d, ]+)`, with the greedy group taking the maximal run. -/
def scSearch : Str → Option Str
  | [] => none
  | c :: rest =>
      if startsWithStr (c :: rest) scMarker && headIs scClass ((c :: rest).drop 15)
      then some (((c :: rest).drop 15).takeWhile scClass)
      else scSearch rest

/-- Python `s.split(",")`: split on every comma (never empty). -/
def splitComma : Str → List Str
  | [] => [[]]
  | c :: rest =>
      if c = ',' then [] :: splitComma rest
      else
        match splitComma rest with
        | t :: ts => (c :: t) :: ts
        | [] => [[c]]

/-- Python `s.strip()` on a token drawn from `[\d, ]` (only spaces occur). -/
def stripSpaces (s : Str) : Str :=
  ((s.dropWhile (fun c => c == ' ')).reverse.dropWhile (fun c => c == ' ')).reverse

/-- Python `int(t.strip())`: the value when the stripped token is a non-empty
digit string, otherwise a `ValueError`. -/
def parseIntTok (t : Str) : Option Nat :=
  let u := stripSpaces t
  if u.isEmpty then none
  else if u.all Char.isDigit then some (digitsVal u) else none

/-- The `SUPPORT_CODES` table from `functions/video.py`. -/
def supportCodes : List (Nat × Str) :=
  [(58061214, S "child"), (17301594, S "child"),
   (29310472, S "celebrity"), (15236754, S "celebrity"),
   (64151117, S "unsafe"), (42237218, S "unsafe"),
   (62263041, S "dangerous"),
   (57734940, S "hate"), (22137204, S "hate"),
   (74803281, S "other"), (29578790, S "other"), (42876398, S "other"),
   (39322892, S "face"),
   (92201652, S "pii"),
   (89371032, S "prohibited"), (49114662, S "prohibited"), (72817394, S "prohibited"),
   (90789179, S "sexual"), (63429089, S "sexual"), (43188360, S "sexual"),
   (78610348, S "toxic"),
   (61493863, S "violence"), (56562880, S "violence"),
   (32635315, S "vulgar")]

/-- Association-list lookup for the support-code table. -/
def lookupCodeIn : List (Nat × Str) → Nat → Option Str
  | [], _ => none
  | (k, v) :: rest, n => if k = n then some v else lookupCodeIn rest n

/-- Python `SUPPORT_CODES.get(code, "other")`. -/
def codeCategory (n : Nat) : Str := (lookupCodeIn supportCodes n).getD (S "other")

/-- Lexicographic string comparison by code point (Python `<` on `str`). -/
def strLt : Str → Str → Bool
  | [], [] => false
  | [], _ :: _ => true
  | _ :: _, [] => false
  | a :: as_, b :: bs => a < b || (a == b && strLt as_ bs)

/-- Insert into a sorted duplicate-free list. -/
def insertSorted (x : Str) : List Str → List Str
  | [] => [x]
  | y :: ys =>
      if x == y then y :: ys
      else if strLt x y then x :: y :: ys
      else y :: insertSorted x ys

/-- Python `sorted(set(l))` for strings. -/
def sortedDedup (l : List Str) : List Str :=
  l.foldl (fun acc x => insertSorted x acc) []

/-- Left-to-right evaluation of `[int(c.strip()) for c in codes]`: the first
failing token raises. -/
def mapOptionAll (f : α → Option β) : List α → Option (List β)
  | [] => some []
  | x :: xs =>
      (f x).bind fun y =>
      (mapOptionAll f xs).bind fun ys =>
      some (y :: ys)

/-- Port of `expand_veo_error` from `functions/video.py`. -/
def expand_veo_error (errorMessage model : Str) : Except VeoError PyDict :=
  match scSearch errorMessage with
  | none => .ok [(S "error", .str errorMessage)]
  | some grp =>
      match mapOptionAll parseIntTok (splitComma grp) with
      | none => .error .valueError
      | some codes =>
          let reasons := sortedDedup (codes.map codeCategory)
          if reasons.isEmpty then .ok [(S "error", .str errorMessage)]
          else
            .ok [(S "error", .str errorMessage),
                 (S "metadata", .obj
                   [(S "origin", .str (S "server")),
                    (S "kind", .str (S "safety")),
                    (S "reasons", .arr (reasons.map .str)),
                    (S "model", .str model)])]

/-- Modelled from the claim's words for C4 (refinement reference):
`expandSafetyError` returns the bare error dict when the message does not
contain the marker followed by integers, and otherwise enriches it with
safety metadata built from all integers that parse. -/
def expandSafetyErrorRef (msg model : Str) : PyDict :=
  match scSearch msg with
  | some grp =>
      if grp.any Char.isDigit then
        let codes := (splitComma grp).filterMap parseIntTok
        let reasons := sortedDedup (codes.map codeCategory)
        [(S "error", .str msg),
         (S "metadata", .obj
           [(S "origin", .str (S "server")),
            (S "kind", .str (S "safety")),
            (S "reasons", .arr (reasons.map .str)),
            (S "model", .str model)])]
      else [(S "error", .str msg)]
  | none => [(S "error", .str msg)]

/-- Do all code tokens of the support-code match (if any) parse as
integers? -/
def veoTokensOk (msg : Str) : Bool :=
  match scSearch msg with
  | none => true
  | some grp => (splitComma grp).all (fun t => (parseIntTok t).isSome)

/-- Removal of a key from a dict (used to compare a part against the same
part without one of its discriminant keys). -/
def dictRemove : PyDict → Str → PyDict
  | [], _ => []
  | (k, v) :: rest, key =>
      if k = key then dictRemove rest key else (k, v) :: dictRemove rest key

mutual

/-- Values representable as Python data: every object has pairwise-distinct
keys (Python dicts cannot hold duplicates). -/
def wellFormed : JValue → Bool
  | .null => true
  | .bool _ => true
  | .num _ => true
  | .str _ => true
  | .arr xs => wfList xs
  | .obj kvs => wfEntries kvs

/-- Well-formedness of array elements. -/
def wfList : List JValue → Bool
  | [] => true
  | x :: xs => wellFormed x && wfList xs

/-- Well-formedness of object entries: each key is fresh in the remainder. -/
def wfEntries : List (Str × JValue) → Bool
  | [] => true
  | (k, v) :: rest =>
      rest.all (fun kv => !(kv.1 == k)) && (wellFormed v && wfEntries rest)

end

mutual

/-- Parser-fuel weight of a value (each node plus the lengths needed by the
sibling loops). -/
def jsize : JValue → Nat
  | .null => 1
  | .bool _ => 1
  | .num _ => 1
  | .str _ => 1
  | .arr xs => jsizeList xs + 1
  | .obj kvs => jsizeEntries kvs + 1

/-- Total weight of array elements. -/
def jsizeList : List JValue → Nat
  | [] => 0
  | x :: xs => jsize x + jsizeList xs

/-- Total weight of object entry values. -/
def jsizeEntries : List (Str × JValue) → Nat
  | [] => 0
  | (_, v) :: rest => jsize v + jsizeEntries rest

end

/-- Modelled from the claim's words for C7 (refinement reference): does a
string start with a URL scheme, i.e. an ASCII letter followed by letters,
digits, `+`, `-` or `.` up to a colon? -/
def schemeTailOk : Str → Bool
  | [] => false
  | ':' :: _ => true
  | c :: r => (c.isAlphanum || c == '+' || c == '-' || c == '.') && schemeTailOk r

/-- Modelled from the claim's words for C7: a URL-scheme-initial string. -/
def startsWithUrlScheme : Str → Bool
  | [] => false
  | c :: r => c.isAlpha && schemeTailOk r

/-! Basic lemmas about the string and dict primitives. -/

theorem startsWithStr_nil_pat (s : Str) : startsWithStr s [] = true := by
  cases s <;> rfl

theorem containsStr_nil_pat (s : Str) : containsStr s [] = true := by
  induction s with
  | nil => rfl
  | cons c t ih => simp [containsStr, startsWithStr_nil_pat, ih]

theorem startsWithStr_append_self (p t : Str) :
    startsWithStr (p ++ t) p = true := by
  induction p with
  | nil => exact startsWithStr_nil_pat t
  | cons c cs ih => simp [startsWithStr, ih]

theorem startsWithStr_eq_true_iff (s p : Str) :
    startsWithStr s p = true ↔ ∃ t, s = p ++ t := by
  constructor
  · intro h
    induction p generalizing s with
    | nil => exact ⟨s, rfl⟩
    | cons c cs ih =>
        cases s with
        | nil => simp [startsWithStr] at h
        | cons d ds =>
            simp only [startsWithStr, Bool.and_eq_true, beq_iff_eq] at h
            obtain ⟨t, ht⟩ := ih ds h.2
            exact ⟨t, by simp [h.1, ht]⟩
  · rintro ⟨t, rfl⟩
    exact startsWithStr_append_self p t

theorem startsWithStr_append_left (a x y : Str) :
    startsWithStr (a ++ x) (a ++ y) = startsWithStr x y := by
  induction a with
  | nil => rfl
  | cons c cs ih => simp [startsWithStr, ih]

theorem containsStr_eq_true_iff (s pat : Str) :
    containsStr s pat = true ↔ ∃ a b, s = a ++ (pat ++ b) := by
  constructor
  · intro h
    induction s with
    | nil =>
        simp only [containsStr, List.isEmpty_iff] at h
        exact ⟨[], [], by simp [h]⟩
    | cons c t ih =>
        simp only [containsStr, Bool.or_eq_true] at h
        rcases h with h | h
        · obtain ⟨b, hb⟩ := (startsWithStr_eq_true_iff _ _).1 h
          exact ⟨[], b, by simp [hb]⟩
        · obtain ⟨a, b, hab⟩ := ih h
          exact ⟨c :: a, b, by simp [hab]⟩
  · rintro ⟨a, b, rfl⟩
    induction a with
    | nil =>
        cases pat with
        | nil => exact containsStr_nil_pat b
        | cons p ps =>
            have hsw : startsWithStr ((p :: ps) ++ b) (p :: ps) = true :=
              startsWithStr_append_self (p :: ps) b
            simp only [List.nil_append, List.cons_append] at hsw ⊢
            simp [containsStr, hsw]
    | cons c a' ih =>
        simp only [List.cons_append, containsStr, Bool.or_eq_true]
        exact Or.inr ih

theorem dictGet_dictSet_ne (d : PyDict) (key k : Str) (v : JValue)
    (h : k ≠ key) : dictGet (dictSet d key v) k = dictGet d k := by
  induction d with
  | nil => simp [dictSet, dictGet, Ne.symm h]
  | cons e rest ih =>
      obtain ⟨ek, ev⟩ := e
      by_cases hek : ek = key
      · subst hek
        simp [dictSet, dictGet, h, Ne.symm h]
      · simp only [dictSet, if_neg hek]
        by_cases hk : ek = k
        · subst hk
          simp [dictGet]
        · simp [dictGet, hk, ih]

theorem dictGet_dictSet_self (d : PyDict) (key : Str) (v : JValue) :
    dictGet (dictSet d key v) key = some v := by
  induction d with
  | nil => simp [dictSet, dictGet]
  | cons e rest ih =>
      obtain ⟨ek, ev⟩ := e
      by_cases hek : ek = key
      · subst hek
        simp [dictSet, dictGet]
      · simp [dictSet, hek, dictGet, ih]

theorem dictGet_dictRemove_ne (d : PyDict) (key k : Str) (h : k ≠ key) :
    dictGet (dictRemove d key) k = dictGet d k := by
  induction d with
  | nil => rfl
  | cons e rest ih =>
      obtain ⟨ek, ev⟩ := e
      by_cases hek : ek = key
      · subst hek
        simp [dictRemove, dictGet, Ne.symm h, ih]
      · by_cases hk : ek = k
        · subst hk
          simp [dictRemove, dictGet, hek]
        · simp [dictRemove, dictGet, hek, hk, ih]

theorem mapME_ok_iff (f : α → Except ConformError β) (xs : List α)
    (ys : List β) :
    mapME f xs = .ok ys ↔ List.Forall₂ (fun x y => f x = .ok y) xs ys := by
  constructor
  · intro h
    induction xs generalizing ys with
    | nil =>
        simp only [mapME] at h
        cases h
        exact List.Forall₂.nil
    | cons x xs ih =>
        simp only [mapME] at h
        cases hfx : f x with
        | error e => rw [hfx] at h; exact absurd h (by simp [Except.bind])
        | ok y =>
            rw [hfx] at h
            cases hrest : mapME f xs with
            | error e => rw [hrest] at h; exact absurd h (by simp [Except.bind])
            | ok ys' =>
                rw [hrest] at h
                simp only [Except.bind] at h
                cases h
                exact List.Forall₂.cons hfx (ih ys' hrest)
  · intro h
    induction h with
    | nil => rfl
    | cons hxy _ ih => simp [mapME, hxy, ih, Except.bind]

theorem dropLeadingSlashes_no_slash (rest : Str)
    (h : startsWithStr rest (S "/") = false) : dropLeadingSlashes rest = rest := by
  cases rest with
  | nil => rfl
  | cons c t =>
      simp only [S, startsWithStr, startsWithStr_nil_pat, Bool.and_true] at h
      simp [dropLeadingSlashes, List.dropWhile_cons, h]

theorem dropLeadingSlashes_replicate (k : Nat) (rest : Str)
    (h : startsWithStr rest (S "/") = false) :
    dropLeadingSlashes (List.replicate k '/' ++ rest) = rest := by
  induction k with
  | zero => simpa using dropLeadingSlashes_no_slash rest h
  | succ n ih =>
      simp only [List.replicate_succ, List.cons_append]
      simpa [dropLeadingSlashes, List.dropWhile_cons] using ih

theorem mapME_error_of_mem (f : α → Except ConformError β) (xs : List α)
    (x : α) (hx : x ∈ xs) (hfx : ∀ y, f x ≠ .ok y) :
    ∃ e, mapME f xs = .error e := by
  induction xs with
  | nil => cases hx
  | cons z zs ih =>
      rcases List.mem_cons.1 hx with rfl | hmem
      · cases hfz : f x with
        | error e => exact ⟨e, by simp [mapME, hfz, Except.bind]⟩
        | ok y => exact absurd hfz (hfx y)
      · cases hfz : f z with
        | error e => exact ⟨e, by simp [mapME, hfz, Except.bind]⟩
        | ok y =>
            obtain ⟨e, he⟩ := ih hmem
            exact ⟨e, by simp [mapME, hfz, he, Except.bind]⟩

theorem startsWithStr_drive_not_nlm (handle : Str)
    (h : startsWithStr handle driveScheme = true) :
    startsWithStr handle nlmBase = false := by
  obtain ⟨t, rfl⟩ := (startsWithStr_eq_true_iff _ _).1 h
  rw [show driveScheme ++ t = 'd' :: (S "rive:" ++ t) from rfl,
      show nlmBase = 'h' :: S "ttps://notebooklm.google.com/notebook/" from rfl]
  simp [startsWithStr]

theorem transformPart_storedData_drive (up : UploadOracle) (p sd : PyDict)
    (handle : Str)
    (hj : dictGet p (S "json") = none)
    (hs : dictGet p (S "storedData") = some (.obj sd))
    (hh : dictGet sd (S "handle") = some (.str handle))
    (hd : startsWithStr handle driveScheme = true) :
    transformPart up (.obj p) =
      uploadGeminiFile up [(S "driveFileId", .str (stripDriveScheme handle))] := by
  have hnlm := startsWithStr_drive_not_nlm handle hd
  simp [transformPart, hj, hs, hh, getStrField, Except.bind, hnlm, hd]

/-- Claim C2 (amended): a handle of the form `drive:` followed by one or
more slashes and a remainder not beginning with a slash classifies as a
Drive reference whose extracted id is the remainder, and the part transform
uploads exactly that id; but with zero slashes (`drive:x`) the strip pattern
`^drive:/+` does not match, so although the handle still classifies as a
Drive reference, the extracted id is the entire unmodified handle, not the
remainder. -/
theorem claim_C2_drive_normalization (rest : Str)
    (hrest : startsWithStr rest (S "/") = false) :
    (∀ k, stripDriveScheme (S "drive:" ++ (List.replicate (k + 1) '/' ++ rest))
        = rest) ∧
    stripDriveScheme (S "drive:" ++ rest) = S "drive:" ++ rest ∧
    (∀ k, startsWithStr (S "drive:" ++ (List.replicate k '/' ++ rest))
        driveScheme = true) ∧
    (∀ up (p sd : PyDict) handle,
      dictGet p (S "json") = none →
      dictGet p (S "storedData") = some (.obj sd) →
      dictGet sd (S "handle") = some (.str handle) →
      startsWithStr handle driveScheme = true →
      transformPart up (.obj p) =
        uploadGeminiFile up
          [(S "driveFileId", .str (stripDriveScheme handle))]) := by
  refine ⟨fun k => ?_, ?_, fun k => ?_, fun up p sd handle hj hs hh hd =>
    transformPart_storedData_drive up p sd handle hj hs hh hd⟩
  · have hsw : startsWithStr
        (S "drive:" ++ (List.replicate (k + 1) '/' ++ rest)) (S "drive:/")
        = true := by
      rw [show (S "drive:" ++ (List.replicate (k + 1) '/' ++ rest))
            = S "drive:/" ++ (List.replicate k '/' ++ rest) by
          simp [S, List.replicate_succ]]
      exact startsWithStr_append_self _ _
    rw [stripDriveScheme, if_pos hsw,
        show (S "drive:" ++ (List.replicate (k + 1) '/' ++ rest)).drop 6
          = List.replicate (k + 1) '/' ++ rest from by
        rw [show (6 : Nat) = (S "drive:").length from rfl]
        exact List.drop_left _ _]
    exact dropLeadingSlashes_replicate (k + 1) rest hrest
  · have hsw : startsWithStr (S "drive:" ++ rest) (S "drive:/") = false := by
      rw [show (S "drive:/") = S "drive:" ++ S "/" from rfl]
      rw [startsWithStr_append_left]
      exact hrest
    rw [stripDriveScheme, if_neg (by simp [hsw])]
  · rw [show (S "drive:" ++ (List.replicate k '/' ++ rest))
        = driveScheme ++ (List.replicate k '/' ++ rest) from rfl]
    exact startsWithStr_append_self _ _

/-- Claim C2 counterexample: the zero-slash handle `drive:x` classifies as a
Drive reference, but the code's extracted id is `drive:x` itself rather than
the remainder `x`: the upload request carries `driveFileId = "drive:x"`, as
the echoing oracle exposes. -/
theorem claim_C2_cex :
    startsWithStr (S "drive:x") driveScheme = true ∧
    stripDriveScheme (S "drive:x") ≠ S "x" ∧
    transformPart
      (fun req => .ok ⟨(match dictGet req (S "driveFileId") with
                        | some (.str s) => s
                        | _ => []), S "m"⟩)
      (.obj [(S "storedData", .obj [(S "handle", .str (S "drive:x")),
                                    (S "mimeType", .str (S "image/png"))])]) =
      .ok (.obj [(S "fileData", .obj
        [(S "fileUri", .str (genaiApiBase ++ S "drive:x")),
         (S "mimeType", .str (S "m"))])]) :=
  ⟨by decide, by decide, rfl⟩

/-- Claim C2 witness: the amended statement applied to the remainder `x`. -/
theorem claim_C2_witness :
    stripDriveScheme (S "drive:///x") = S "x" ∧
    stripDriveScheme (S "drive:x") = S "drive:x" := by
  constructor
  · rw [show S "drive:///x"
        = S "drive:" ++ (List.replicate (2 + 1) '/' ++ S "x") from rfl]
    exact (claim_C2_drive_normalization (S "x") (by decide)).1 2
  · rw [show S "drive:x" = S "drive:" ++ S "x" from rfl]
    exact (claim_C2_drive_normalization (S "x") (by decide)).2.1

theorem hexRun_decomp (n : Nat) (s r : Str) (h : hexRun n s = some r) :
    ∃ t, s = t ++ r ∧ ∀ c ∈ t, isHexLower c = true := by
  induction n generalizing s with
  | zero =>
      simp only [hexRun, Option.some.injEq] at h
      exact ⟨[], by simp [h]⟩
  | succ n ih =>
      cases s with
      | nil => simp [hexRun] at h
      | cons c t =>
          simp only [hexRun] at h
          by_cases hc : isHexLower c = true
          · rw [if_pos hc] at h
            obtain ⟨t', ht', hall⟩ := ih t h
            refine ⟨c :: t', by simp [ht'], ?_⟩
            intro x hx
            rcases List.mem_cons.1 hx with rfl | hx
            · exact hc
            · exact hall x hx
          · rw [if_neg hc] at h
            cases h

theorem expectChar_decomp (ch : Char) (s r : Str)
    (h : expectChar ch s = some r) : s = ch :: r := by
  cases s with
  | nil => cases h
  | cons d t =>
      simp only [expectChar] at h
      by_cases hd : d = ch
      · rw [if_pos hd] at h
        cases h
        rw [hd]
      · rw [if_neg hd] at h
        cases h

theorem uuidRun_empty_chars (u : Str) (h : uuidRun u = some []) :
    ∀ c ∈ u, isHexLower c = true ∨ c = '-' := by
  unfold uuidRun at h
  cases h1 : hexRun 8 u with
  | none => rw [h1] at h; cases h
  | some s1 =>
  rw [h1, Option.some_bind] at h
  cases h2 : expectChar '-' s1 with
  | none => rw [h2] at h; cases h
  | some s2 =>
  rw [h2, Option.some_bind] at h
  cases h3 : hexRun 4 s2 with
  | none => rw [h3] at h; cases h
  | some s3 =>
  rw [h3, Option.some_bind] at h
  cases h4 : expectChar '-' s3 with
  | none => rw [h4] at h; cases h
  | some s4 =>
  rw [h4, Option.some_bind] at h
  cases h5 : hexRun 4 s4 with
  | none => rw [h5] at h; cases h
  | some s5 =>
  rw [h5, Option.some_bind] at h
  cases h6 : expectChar '-' s5 with
  | none => rw [h6] at h; cases h
  | some s6 =>
  rw [h6, Option.some_bind] at h
  cases h7 : hexRun 4 s6 with
  | none => rw [h7] at h; cases h
  | some s7 =>
  rw [h7, Option.some_bind] at h
  cases h8 : expectChar '-' s7 with
  | none => rw [h8] at h; cases h
  | some s8 =>
  rw [h8, Option.some_bind] at h
  obtain ⟨t1, he1, ha1⟩ := hexRun_decomp 8 u s1 h1
  have he2 := expectChar_decomp '-' s1 s2 h2
  obtain ⟨t3, he3, ha3⟩ := hexRun_decomp 4 s2 s3 h3
  have he4 := expectChar_decomp '-' s3 s4 h4
  obtain ⟨t5, he5, ha5⟩ := hexRun_decomp 4 s4 s5 h5
  have he6 := expectChar_decomp '-' s5 s6 h6
  obtain ⟨t7, he7, ha7⟩ := hexRun_decomp 4 s6 s7 h7
  have he8 := expectChar_decomp '-' s7 s8 h8
  obtain ⟨t9, he9, ha9⟩ := hexRun_decomp 12 s8 [] h
  intro c hc
  rw [he1] at hc
  rcases List.mem_append.1 hc with hc | hc
  · exact Or.inl (ha1 c hc)
  rw [he2] at hc
  rcases List.mem_cons.1 hc with rfl | hc
  · exact Or.inr rfl
  rw [he3] at hc
  rcases List.mem_append.1 hc with hc | hc
  · exact Or.inl (ha3 c hc)
  rw [he4] at hc
  rcases List.mem_cons.1 hc with rfl | hc
  · exact Or.inr rfl
  rw [he5] at hc
  rcases List.mem_append.1 hc with hc | hc
  · exact Or.inl (ha5 c hc)
  rw [he6] at hc
  rcases List.mem_cons.1 hc with rfl | hc
  · exact Or.inr rfl
  rw [he7] at hc
  rcases List.mem_append.1 hc with hc | hc
  · exact Or.inl (ha7 c hc)
  rw [he8] at hc
  rcases List.mem_cons.1 hc with rfl | hc
  · exact Or.inr rfl
  rw [he9] at hc
  rcases List.mem_append.1 hc with hc | hc
  · exact Or.inl (ha9 c hc)
  · cases hc

theorem blobSuffixHere_mk (u : Str) (hu : uuidRun u = some []) :
    blobSuffixHere (S "/board/blobs/" ++ u) = true := by
  unfold blobSuffixHere
  rw [startsWithStr_append_self,
      show (S "/board/blobs/" ++ u).drop 13 = u from by
        rw [show (13 : Nat) = (S "/board/blobs/").length from rfl]
        exact List.drop_left _ _]
  simp [uuidAtEnd, hu]

theorem blobScan_append_suffix (a tail : Str) (ha : a ≠ [])
    (hnl : ∀ c ∈ a, c ≠ '\n') (htail : blobSuffixHere tail = true) :
    blobScan (a ++ tail) = true := by
  induction a with
  | nil => cases ha rfl
  | cons c a' ih =>
      have hc : (c == '\n') = false := by
        have := hnl c (List.mem_cons_self c a')
        simp [this]
      cases a' with
      | nil => simp [blobScan, hc, htail]
      | cons d a'' =>
          have hrec := ih (by simp)
            (fun x hx => hnl x (List.mem_cons_of_mem _ hx))
          simp only [List.cons_append, blobScan, hc, Bool.not_false,
            Bool.true_and, Bool.or_eq_true]
          exact Or.inr hrec

theorem blobScan_split (r : Str) (h : blobScan r = true) :
    ∃ x y, r = x ++ (S "/board/blobs/" ++ y) := by
  induction r with
  | nil => cases h
  | cons c rest ih =>
      simp only [blobScan, Bool.and_eq_true, Bool.or_eq_true] at h
      rcases h.2 with hsuf | hscan
      · simp only [blobSuffixHere, Bool.and_eq_true] at hsuf
        obtain ⟨hsw, _⟩ := hsuf
        obtain ⟨t, ht⟩ := (startsWithStr_eq_true_iff _ _).1 hsw
        exact ⟨[c], t, by simp [ht]⟩
      · obtain ⟨x, y, hxy⟩ := ih hscan
        exact ⟨c :: x, y, by simp [hxy]⟩

theorem stripHttpScheme_https (x : Str) :
    stripHttpScheme (S "https://" ++ x) = some x := by
  unfold stripHttpScheme
  rw [if_pos (startsWithStr_append_self _ _)]
  rw [show (S "https://" ++ x).drop 8 = x from by
    rw [show (8 : Nat) = (S "https://").length from rfl]
    exact List.drop_left _ _]

theorem stripHttpScheme_http (x : Str) :
    stripHttpScheme (S "http://" ++ x) = some x := by
  unfold stripHttpScheme
  have h1 : startsWithStr (S "http://" ++ x) (S "https://") = false := by
    rw [show S "http://" ++ x = S "http" ++ (S "://" ++ x) from by
          rw [show S "http://" = S "http" ++ S "://" from rfl, List.append_assoc],
        show S "https://" = S "http" ++ S "s://" from rfl,
        startsWithStr_append_left,
        show S "://" ++ x = ':' :: (S "//" ++ x) from rfl,
        show S "s://" = 's' :: S "://" from rfl]
    simp [startsWithStr]
  rw [if_neg (by simp [h1]), if_pos (startsWithStr_append_self _ _)]
  rw [show (S "http://" ++ x).drop 7 = x from by
    rw [show (7 : Nat) = (S "http://").length from rfl]
    exact List.drop_left _ _]

theorem takeWhile_append_false (p : Char → Bool) (l : Str) (d : Char)
    (r : Str) (hl : ∀ c ∈ l, p c = true) (hd : p d = false) :
    (l ++ d :: r).takeWhile p = l := by
  induction l with
  | nil => simp [List.takeWhile_cons, hd]
  | cons c t ih =>
      have hc := hl c (List.mem_cons_self c t)
      simp only [List.cons_append, List.takeWhile_cons, hc, if_true]
      rw [ih (fun x hx => hl x (List.mem_cons_of_mem _ hx))]

theorem lastSlashSegment_of_slash (y u : Str) (hu : ∀ c ∈ u, c ≠ '/') :
    lastSlashSegment ((y ++ ['/']) ++ u) = u := by
  unfold lastSlashSegment
  rw [List.reverse_append, List.reverse_append]
  simp only [List.reverse_cons, List.reverse_nil, List.nil_append,
    List.singleton_append]
  rw [takeWhile_append_false _ u.reverse '/' y.reverse
      (fun c hc => by simp [hu c (List.mem_reverse.1 hc)]) (by decide)]
  exact List.reverse_reverse u

/-- Claim C3 (amended): a URL `http(s)://<non-empty, newline-free part>`
followed by `/board/blobs/<uuid>` with the UUID in lowercase hex classifies
as a blob reference whose id is the final path segment (the UUID), and a URL
without the `/board/blobs/` segment never classifies; but the character
classes of `_BLOB_UUID_RE` are compiled without `IGNORECASE`, so the UUID
match is case-sensitive, not case-insensitive. -/
theorem claim_C3_blob_handles (sch a u : Str)
    (hsch : sch = S "http://" ∨ sch = S "https://")
    (ha : a ≠ []) (hnl : ∀ c ∈ a, c ≠ '\n')
    (hu : uuidRun u = some []) :
    maybeBlob (sch ++ (a ++ (S "/board/blobs/" ++ u))) = some u ∧
    (∀ url, containsStr url (S "/board/blobs/") = false →
      maybeBlob url = none) := by
  constructor
  · have hstrip : stripHttpScheme (sch ++ (a ++ (S "/board/blobs/" ++ u)))
        = some (a ++ (S "/board/blobs/" ++ u)) := by
      rcases hsch with rfl | rfl
      · exact stripHttpScheme_http _
      · exact stripHttpScheme_https _
    have hscan : blobScan (a ++ (S "/board/blobs/" ++ u)) = true :=
      blobScan_append_suffix a _ ha hnl (blobSuffixHere_mk u hu)
    have hmatch : blobMatches (sch ++ (a ++ (S "/board/blobs/" ++ u)))
        = true := by
      unfold blobMatches
      rw [hstrip]
      exact hscan
    unfold maybeBlob
    rw [if_pos hmatch]
    have hnos : ∀ c ∈ u, c ≠ '/' := by
      intro c hc
      rcases uuidRun_empty_chars u hu c hc with hhex | rfl
      · intro hcs
        rw [hcs] at hhex
        cases hhex
      · decide
    rw [show sch ++ (a ++ (S "/board/blobs/" ++ u))
          = ((sch ++ a ++ S "/board/blobs") ++ ['/']) ++ u from by
        rw [show (S "/board/blobs/") = S "/board/blobs" ++ ['/'] from rfl]
        simp [List.append_assoc]]
    rw [lastSlashSegment_of_slash _ u hnos]
  · intro url hc
    cases hbm : blobMatches url with
    | false => simp [maybeBlob, hbm]
    | true =>
        exfalso
        unfold blobMatches at hbm
        cases hstrip : stripHttpScheme url with
        | none => rw [hstrip] at hbm; cases hbm
        | some r =>
            rw [hstrip] at hbm
            obtain ⟨x, y, hxy⟩ := blobScan_split r hbm
            unfold stripHttpScheme at hstrip
            by_cases hs1 : startsWithStr url (S "https://") = true
            · rw [if_pos hs1] at hstrip
              obtain ⟨t, rfl⟩ := (startsWithStr_eq_true_iff _ _).1 hs1
              rw [show (S "https://" ++ t).drop 8 = t from by
                    rw [show (8 : Nat) = (S "https://").length from rfl]
                    exact List.drop_left _ _] at hstrip
              cases hstrip
              rw [(containsStr_eq_true_iff _ _).2
                ⟨S "https://" ++ x, y, by simp [hxy, List.append_assoc]⟩] at hc
              cases hc
            · rw [if_neg hs1] at hstrip
              by_cases hs2 : startsWithStr url (S "http://") = true
              · rw [if_pos hs2] at hstrip
                obtain ⟨t, rfl⟩ := (startsWithStr_eq_true_iff _ _).1 hs2
                rw [show (S "http://" ++ t).drop 7 = t from by
                      rw [show (7 : Nat) = (S "http://").length from rfl]
                      exact List.drop_left _ _] at hstrip
                cases hstrip
                rw [(containsStr_eq_true_iff _ _).2
                  ⟨S "http://" ++ x, y, by simp [hxy, List.append_assoc]⟩] at hc
                cases hc
              · rw [if_neg hs2] at hstrip
                cases hstrip

/-- Claim C3 counterexample: an upper-case hex UUID in a same-shaped blob
URL does not classify, refuting the claimed case-insensitive matching. -/
theorem claim_C3_cex :
    maybeBlob
      (S "https://h/board/blobs/12345678-1234-1234-1234-123456789ABC")
      = none := by decide

/-- Claim C3 witness: the amended statement applied to the spec's lowercase
example and to a same-shaped URL without the blob segment. -/
theorem claim_C3_witness :
    maybeBlob (S "https://h/board/blobs/12345678-1234-1234-1234-123456789abc")
      = some (S "12345678-1234-1234-1234-123456789abc") ∧
    maybeBlob (S "https://example.com/foo") = none := by
  constructor
  · rw [show S "https://h/board/blobs/12345678-1234-1234-1234-123456789abc"
        = S "https://" ++ (S "h" ++ (S "/board/blobs/"
            ++ S "12345678-1234-1234-1234-123456789abc")) from rfl]
    exact (claim_C3_blob_handles (S "https://") (S "h")
      (S "12345678-1234-1234-1234-123456789abc") (Or.inr rfl) (by decide)
      (by decide) (by decide)).1
  · exact (claim_C3_blob_handles (S "https://") (S "h")
      (S "12345678-1234-1234-1234-123456789abc") (Or.inr rfl) (by decide)
      (by decide) (by decide)).2 _ (by decide)

/-- Claim C7 (amended): a successful upload response `(fileUrl, mimeType)`
becomes the part `fileData = (fileUri, mimeType)` where `fileUri` is the
absolutization of `fileUrl`; the URL is kept verbatim exactly when it is
empty or starts with the literal `"http"` (not: with any URL scheme), and is
otherwise prefixed with the API base after stripping all leading slashes. -/
theorem claim_C7_upload_absolutization (up : UploadOracle) (req : PyDict)
    (resp : UploadResponse) (h : up req = .ok resp) :
    uploadGeminiFile up req = .ok (.obj [(S "fileData", .obj
      [(S "fileUri", .str (absolutizeFileUrl resp.fileUrl)),
       (S "mimeType", .str resp.mimeType)])]) ∧
    ((resp.fileUrl = [] ∨ startsWithStr resp.fileUrl (S "http") = true) →
      absolutizeFileUrl resp.fileUrl = resp.fileUrl) ∧
    (resp.fileUrl ≠ [] → startsWithStr resp.fileUrl (S "http") = false →
      absolutizeFileUrl resp.fileUrl
        = genaiApiBase ++ dropLeadingSlashes resp.fileUrl) := by
  refine ⟨?_, ?_, ?_⟩
  · simp only [uploadGeminiFile, bind, Except.bind, h]
  · rintro (hempty | hhttp)
    · simp [absolutizeFileUrl, hempty]
    · simp [absolutizeFileUrl, hhttp]
  · intro hne hsw
    have hemp : resp.fileUrl.isEmpty = false := by
      cases hfu : resp.fileUrl with
      | nil => exact absurd hfu hne
      | cons c t => rfl
    simp [absolutizeFileUrl, hemp, hsw]

/-- Claim C7 counterexample: `"ftp://x"` starts with a URL scheme, yet the
code's check is `startswith("http")`, so the gateway prefixes the API base
instead of keeping it verbatim. -/
theorem claim_C7_cex :
    startsWithUrlScheme (S "ftp://x") = true ∧
    uploadGeminiFile (fun _ => .ok ⟨S "ftp://x", S "image/png"⟩)
      [(S "driveFileId", .str (S "y"))] =
      .ok (.obj [(S "fileData", .obj
        [(S "fileUri", .str (genaiApiBase ++ S "ftp://x")),
         (S "mimeType", .str (S "image/png"))])]) ∧
    genaiApiBase ++ S "ftp://x" ≠ S "ftp://x" :=
  ⟨by decide, rfl, by decide⟩

/-- Claim C7 witness: the amended statement applied to the spec's example
response `fileUrl = "files/x"`, `mimeType = "image/png"`. -/
theorem claim_C7_witness :
    uploadGeminiFile (fun _ => .ok ⟨S "files/x", S "image/png"⟩)
      [(S "driveFileId", .str (S "id1"))] =
      .ok (.obj [(S "fileData", .obj
        [(S "fileUri", .str (genaiApiBase ++ S "files/x")),
         (S "mimeType", .str (S "image/png"))])]) := by
  have h := claim_C7_upload_absolutization
    (fun _ => .ok ⟨S "files/x", S "image/png"⟩)
    [(S "driveFileId", .str (S "id1"))]
    ⟨S "files/x", S "image/png"⟩ rfl
  have h3 := h.2.2 (by decide) (by decide)
  rw [h.1, h3]
  rw [show dropLeadingSlashes (S "files/x") = S "files/x" from rfl]

/-- Claim C8 (confirmed): a `fileData` part whose `mimeType` is `video/mp4`
passes through the part transform unchanged, whatever its `fileUri` is (the
canonical-prefix check and the video check both return the part itself, and
both run before the Drive-upload and unknown-URI rules). -/
theorem claim_C8_video_passthrough (up : UploadOracle) (p fd : PyDict)
    (hj : dictGet p (S "json") = none)
    (hs : dictGet p (S "storedData") = none)
    (hf : dictGet p (S "fileData") = some (.obj fd))
    (hu : dictGet fd (S "fileUri") = none ∨
          ∃ uri, dictGet fd (S "fileUri") = some (.str uri))
    (hm : dictGet fd (S "mimeType") = some (.str (S "video/mp4"))) :
    transformPart up (.obj p) = .ok (.obj p) := by
  have huri : ∃ uri, getStrField fd (S "fileUri") = .ok uri := by
    rcases hu with hnone | ⟨uri, hsome⟩
    · exact ⟨S "", by simp [getStrField, hnone]⟩
    · exact ⟨uri, by simp [getStrField, hsome]⟩
  obtain ⟨uri, huri⟩ := huri
  simp only [transformPart, hj, hs, hf, huri, Except.bind, hm]
  cases hsw : startsWithStr uri genaiFilesBase with
  | true => simp [hsw]
  | false => simp [hsw, isStrEq]

/-- Claim C8 witness: a Drive-scheme `fileUri` with `video/mp4` passes
through even with an upload oracle that always fails, showing no upload is
attempted. -/
theorem claim_C8_witness :
    transformPart (fun _ => .error .httpStatusError)
      (.obj [(S "fileData", .obj [(S "fileUri", .str (S "drive:/x")),
                                  (S "mimeType", .str (S "video/mp4"))])]) =
      .ok (.obj [(S "fileData", .obj [(S "fileUri", .str (S "drive:/x")),
                                      (S "mimeType", .str (S "video/mp4"))])]) :=
  claim_C8_video_passthrough _ _ _ rfl rfl rfl
    (Or.inr ⟨S "drive:/x", rfl⟩) rfl

/-- Claim C1 (amended): the absolutized URI of a relative upload result
`files/<id>` is the API base followed by `files/<id>` with a single slash,
while the canonical-reference check uses `GENAI_FILES_PREFIX`, which
contains a double slash (`v1beta//files/`); the absolutized URI therefore is
NOT classified as already canonical, and feeding a gateway-produced
`fileData` part (with a non-`video/mp4` mime type) back through the part
transform fails with an unknown-fileData error instead of passing through:
the round trip is not the identity. -/
theorem claim_C1_files_base_mismatch (id mime : Str) (up : UploadOracle)
    (hm : mime ≠ S "video/mp4") :
    absolutizeFileUrl (S "files/" ++ id) = genaiApiBase ++ (S "files/" ++ id) ∧
    startsWithStr (genaiApiBase ++ (S "files/" ++ id)) genaiFilesBase
      = false ∧
    transformPart up (.obj [(S "fileData", .obj
      [(S "fileUri", .str (genaiApiBase ++ (S "files/" ++ id))),
       (S "mimeType", .str mime)])]) =
      .error (.valueError
        (unknownFileDataMsg (genaiApiBase ++ (S "files/" ++ id)))) := by
  have habs : absolutizeFileUrl (S "files/" ++ id)
      = genaiApiBase ++ (S "files/" ++ id) := by
    rw [show S "files/" ++ id = 'f' :: (S "iles/" ++ id) from rfl]
    rw [absolutizeFileUrl, if_pos ?_]
    · rw [show dropLeadingSlashes ('f' :: (S "iles/" ++ id))
          = 'f' :: (S "iles/" ++ id) from by
        simp [dropLeadingSlashes, List.dropWhile_cons]]
    · rw [show (S "http") = 'h' :: S "ttp" from rfl]
      simp [startsWithStr, List.isEmpty]
  have hpre : startsWithStr (genaiApiBase ++ (S "files/" ++ id))
      genaiFilesBase = false := by
    rw [show genaiFilesBase = genaiApiBase ++ S "/files/" from rfl,
        startsWithStr_append_left,
        show S "files/" ++ id = 'f' :: (S "iles/" ++ id) from rfl,
        show S "/files/" = '/' :: S "files/" from rfl]
    simp [startsWithStr]
  have hdrive : startsWithStr (genaiApiBase ++ (S "files/" ++ id))
      driveScheme = false := by
    rw [show genaiApiBase
          = 'h' :: S "ttps://generativelanguage.googleapis.com/v1beta/"
          from rfl,
        show driveScheme = 'd' :: S "rive:" from rfl]
    simp [startsWithStr]
  have hmime : (mime == S "video/mp4") = false := by
    simp [hm]
  refine ⟨habs, hpre, ?_⟩
  simp only [transformPart,
    show dictGet [(S "fileData", JValue.obj
      [(S "fileUri", JValue.str (genaiApiBase ++ (S "files/" ++ id))),
       (S "mimeType", JValue.str mime)])] (S "json") = none from rfl,
    show dictGet [(S "fileData", JValue.obj
      [(S "fileUri", JValue.str (genaiApiBase ++ (S "files/" ++ id))),
       (S "mimeType", JValue.str mime)])] (S "storedData") = none from rfl,
    show dictGet [(S "fileData", JValue.obj
      [(S "fileUri", JValue.str (genaiApiBase ++ (S "files/" ++ id))),
       (S "mimeType", JValue.str mime)])] (S "fileData")
      = some (JValue.obj
        [(S "fileUri", JValue.str (genaiApiBase ++ (S "files/" ++ id))),
         (S "mimeType", JValue.str mime)]) from rfl,
    show getStrField
      [(S "fileUri", JValue.str (genaiApiBase ++ (S "files/" ++ id))),
       (S "mimeType", JValue.str mime)] (S "fileUri")
      = .ok (genaiApiBase ++ (S "files/" ++ id)) from rfl,
    show dictGet
      [(S "fileUri", JValue.str (genaiApiBase ++ (S "files/" ++ id))),
       (S "mimeType", JValue.str mime)] (S "mimeType")
      = some (JValue.str mime) from rfl,
    Except.bind, hpre, hdrive]
  simp [isStrEq, hmime]

/-- Claim C1 counterexample: uploading `drive:///id1` with a mocked response
`fileUrl = "files/x"` produces a `fileData` part whose URI has a single
slash before `files`, and feeding that part back through the transform
raises an unknown-fileData error — the round trip is not the identity. -/
theorem claim_C1_cex :
    transformPart (fun _ => .ok ⟨S "files/x", S "image/png"⟩)
      (.obj [(S "storedData", .obj
        [(S "handle", .str (S "drive:///id1")),
         (S "mimeType", .str (S "image/png"))])]) =
      .ok (.obj [(S "fileData", .obj
        [(S "fileUri", .str
            (S "https://generativelanguage.googleapis.com/v1beta/files/x")),
         (S "mimeType", .str (S "image/png"))])]) ∧
    (∀ q, transformPart (fun _ => .ok ⟨S "files/x", S "image/png"⟩)
      (.obj [(S "fileData", .obj
        [(S "fileUri", .str
            (S "https://generativelanguage.googleapis.com/v1beta/files/x")),
         (S "mimeType", .str (S "image/png"))])]) ≠ .ok q) := by
  refine ⟨rfl, fun q hq => ?_⟩
  have h : transformPart (fun _ => .ok ⟨S "files/x", S "image/png"⟩)
      (.obj [(S "fileData", .obj
        [(S "fileUri", .str
            (S "https://generativelanguage.googleapis.com/v1beta/files/x")),
         (S "mimeType", .str (S "image/png"))])]) =
      .error (.valueError (unknownFileDataMsg
        (S "https://generativelanguage.googleapis.com/v1beta/files/x"))) := rfl
  rw [h] at hq
  cases hq

/-- Claim C1 witness: the amended statement applied to `id = "x"` with mime
type `image/png`. -/
theorem claim_C1_witness :
    startsWithStr (genaiApiBase ++ (S "files/" ++ S "x")) genaiFilesBase
      = false ∧
    transformPart (fun _ => .error .httpStatusError)
      (.obj [(S "fileData", .obj
        [(S "fileUri", .str (genaiApiBase ++ (S "files/" ++ S "x"))),
         (S "mimeType", .str (S "image/png"))])]) =
      .error (.valueError
        (unknownFileDataMsg (genaiApiBase ++ (S "files/" ++ S "x")))) := by
  have h := claim_C1_files_base_mismatch (S "x") (S "image/png")
    (fun _ => .error .httpStatusError) (by decide)
  exact ⟨h.2.1, h.2.2⟩

theorem transformContent_part_error (up : UploadOracle) (content : PyDict)
    (parts : List JValue) (part : JValue)
    (hp : dictGet content (S "parts") = some (.arr parts))
    (hmem : part ∈ parts)
    (herr : ∀ q, transformPart up part ≠ .ok q) :
    ∀ q, transformContent up (.obj content) ≠ .ok q := by
  intro q hq
  have hne : parts ≠ [] := by
    intro h0
    rw [h0] at hmem
    cases hmem
  have hfalsy : pyFalsy (.arr parts) = false := by
    simp [pyFalsy, hne]
  obtain ⟨e, he⟩ := mapME_error_of_mem (transformPart up) parts part hmem herr
  rw [transformContent, hp] at hq
  simp [hfalsy, he, Except.bind] at hq

/-- Claim C6 (confirmed): a `storedData` part whose handle is neither a
NotebookLM, nor a Drive, nor a Blob reference — and a `fileData` part whose
URI is neither canonical nor Drive with a non-`video/mp4` mime type — makes
the part transform raise an unknown-handle `ValueError` whose message
contains the offending value, and any body containing such a part (in a
content with parts) makes `conform_body` fail: no body is ever returned. -/
theorem claim_C6_unknown_handle (up : UploadOracle) :
    (∀ (p sd : PyDict) handle,
      dictGet p (S "json") = none →
      dictGet p (S "storedData") = some (.obj sd) →
      dictGet sd (S "handle") = some (.str handle) →
      startsWithStr handle nlmBase = false →
      startsWithStr handle driveScheme = false →
      maybeBlob handle = none →
      transformPart up (.obj p)
        = .error (.valueError (unknownStoredDataMsg handle)) ∧
      containsStr (unknownStoredDataMsg handle) handle = true) ∧
    (∀ (p fd : PyDict) uri,
      dictGet p (S "json") = none →
      dictGet p (S "storedData") = none →
      dictGet p (S "fileData") = some (.obj fd) →
      dictGet fd (S "fileUri") = some (.str uri) →
      isStrEq ((dictGet fd (S "mimeType")).getD (.str (S "")))
        (S "video/mp4") = false →
      startsWithStr uri genaiFilesBase = false →
      startsWithStr uri driveScheme = false →
      transformPart up (.obj p)
        = .error (.valueError (unknownFileDataMsg uri)) ∧
      containsStr (unknownFileDataMsg uri) uri = true) ∧
    (∀ (body : PyDict) cs (content : PyDict) parts part,
      dictGet body (S "contents") = some (.arr cs) →
      (JValue.obj content) ∈ cs →
      dictGet content (S "parts") = some (.arr parts) →
      part ∈ parts →
      (∀ q, transformPart up part ≠ .ok q) →
      ∀ b2, conform_body up body ≠ .ok b2) := by
  refine ⟨?_, ?_, ?_⟩
  · intro p sd handle hj hs hh hnlm hdrive hblob
    constructor
    · simp [transformPart, hj, hs, hh, getStrField, Except.bind, hnlm,
        hdrive, hblob]
    · exact (containsStr_eq_true_iff _ _).2
        ⟨S "Unknown storedData handle: \"", S "\"",
         by simp [unknownStoredDataMsg, List.append_assoc]⟩
  · intro p fd uri hj hs hf hu hm hpre hdrive
    constructor
    · simp [transformPart, hj, hs, hf, getStrField, hu, Except.bind, hpre,
        hm, hdrive]
    · exact (containsStr_eq_true_iff _ _).2
        ⟨S "Unknown fileData URI: \"", S "\"",
         by simp [unknownFileDataMsg, List.append_assoc]⟩
  · intro body cs content parts part hb hcmem hp hpmem herr b2 hok
    have hcne : cs ≠ [] := by
      intro h0
      rw [h0] at hcmem
      cases hcmem
    have hfalsy : pyFalsy (.arr cs) = false := by
      simp [pyFalsy, hcne]
    have hcerr := transformContent_part_error up content parts part hp
      hpmem herr
    obtain ⟨e, he⟩ := mapME_error_of_mem (transformContent up) cs
      (.obj content) hcmem hcerr
    rw [conform_body, hb] at hok
    simp only [hfalsy] at hok
    rw [he] at hok
    cases hok

/-- Claim C6 witness: the test suite's `ftp://weird` handle raises the
unknown-handle error with the handle embedded, and a whole body containing
that part never conforms successfully. -/
theorem claim_C6_witness :
    transformPart (fun _ => .error .httpStatusError)
      (.obj [(S "storedData", .obj [(S "handle", .str (S "ftp://weird")),
                                    (S "mimeType", .str (S "image/png"))])])
      = .error (.valueError (unknownStoredDataMsg (S "ftp://weird"))) ∧
    containsStr (unknownStoredDataMsg (S "ftp://weird")) (S "ftp://weird")
      = true ∧
    ∀ b2, conform_body (fun _ => .error .httpStatusError)
      [(S "contents", .arr [.obj
        [(S "parts", .arr [.obj
          [(S "storedData", .obj [(S "handle", .str (S "ftp://weird")),
                                  (S "mimeType", .str (S "image/png"))])]]),
         (S "role", .str (S "user"))]])] ≠ .ok b2 := by
  have h := (claim_C6_unknown_handle (fun _ => .error .httpStatusError)).1
    [(S "storedData", .obj [(S "handle", .str (S "ftp://weird")),
                            (S "mimeType", .str (S "image/png"))])]
    [(S "handle", .str (S "ftp://weird")),
     (S "mimeType", .str (S "image/png"))]
    (S "ftp://weird") rfl rfl rfl (by decide) (by decide) (by decide)
  refine ⟨h.1, h.2, ?_⟩
  exact (claim_C6_unknown_handle (fun _ => .error .httpStatusError)).2.2
    _ _ _ _ _ rfl (List.mem_singleton.2 rfl) rfl (List.mem_singleton.2 rfl)
    (fun q hq => by rw [h.1] at hq; cases hq)

/-- Claim C10 (confirmed): a part violating the single-discriminant
invariant is decided by the fixed probe order `json`, `storedData`,
`fileData`: with a `json` key present the part becomes a text part from the
JSON value and no upload oracle is ever consulted; with `storedData` present
(and no `json`) the transform is identical to that of the same part with its
`fileData` key removed. -/
theorem claim_C10_probe_order (up up2 : UploadOracle) (p : PyDict) :
    (∀ v, dictGet p (S "json") = some v →
      transformPart up (.obj p) = .ok (.obj [(S "text", .str (dumps v))]) ∧
      transformPart up (.obj p) = transformPart up2 (.obj p)) ∧
    (dictGet p (S "json") = none →
      (dictGet p (S "storedData")).isSome = true →
      transformPart up (.obj p)
        = transformPart up (.obj (dictRemove p (S "fileData")))) := by
  constructor
  · intro v hj
    constructor
    · simp [transformPart, hj]
    · simp [transformPart, hj]
  · intro hj hs
    obtain ⟨sdv, hsd⟩ := Option.isSome_iff_exists.1 hs
    have hj2 : dictGet (dictRemove p (S "fileData")) (S "json") = none := by
      rw [dictGet_dictRemove_ne _ _ _ (by decide)]
      exact hj
    have hsd2 : dictGet (dictRemove p (S "fileData")) (S "storedData")
        = some sdv := by
      rw [dictGet_dictRemove_ne _ _ _ (by decide)]
      exact hsd
    cases sdv with
    | obj sd => simp [transformPart, hj, hsd, hj2, hsd2]
    | null => simp [transformPart, hj, hsd, hj2, hsd2]
    | bool b => simp [transformPart, hj, hsd, hj2, hsd2]
    | num n => simp [transformPart, hj, hsd, hj2, hsd2]
    | str s => simp [transformPart, hj, hsd, hj2, hsd2]
    | arr xs => simp [transformPart, hj, hsd, hj2, hsd2]

/-- Claim C10 witness: a part with both `json` and `storedData` becomes a
text part without consulting the (failing) upload oracle, and a part with
both `storedData` and `fileData` transforms exactly as the part without its
`fileData` key. -/
theorem claim_C10_witness :
    transformPart (fun _ => .error .httpStatusError)
      (.obj [(S "json", .obj [(S "a", .num 1)]),
             (S "storedData", .obj [(S "handle", .str (S "drive:/x"))])])
      = .ok (.obj [(S "text", .str (dumps (.obj [(S "a", .num 1)])))]) ∧
    transformPart (fun _ => .ok ⟨S "files/x", S "m"⟩)
      (.obj [(S "storedData", .obj [(S "handle", .str (S "drive:/x"))]),
             (S "fileData", .obj [(S "fileUri", .str (S "zzz"))])])
      = transformPart (fun _ => .ok ⟨S "files/x", S "m"⟩)
          (.obj (dictRemove
            [(S "storedData", .obj [(S "handle", .str (S "drive:/x"))]),
             (S "fileData", .obj [(S "fileUri", .str (S "zzz"))])]
            (S "fileData"))) :=
  ⟨((claim_C10_probe_order (fun _ => .error .httpStatusError)
      (fun _ => .error .httpStatusError)
      [(S "json", .obj [(S "a", .num 1)]),
       (S "storedData", .obj [(S "handle", .str (S "drive:/x"))])]).1
      (.obj [(S "a", .num 1)]) rfl).1,
   (claim_C10_probe_order (fun _ => .ok ⟨S "files/x", S "m"⟩)
      (fun _ => .ok ⟨S "files/x", S "m"⟩)
      [(S "storedData", .obj [(S "handle", .str (S "drive:/x"))]),
       (S "fileData", .obj [(S "fileUri", .str (S "zzz"))])]).2 rfl rfl⟩

theorem conform_body_ok_cases (up : UploadOracle) (body b2 : PyDict)
    (hok : conform_body up body = .ok b2) :
    (b2 = body ∧ (dictGet body (S "contents") = none ∨
      ∃ cv, dictGet body (S "contents") = some cv ∧ pyFalsy cv = true)) ∨
    (∃ cs cs2, dictGet body (S "contents") = some (.arr cs) ∧
      mapME (transformContent up) cs = .ok cs2 ∧
      b2 = dictSet body (S "contents") (.arr cs2)) := by
  unfold conform_body at hok
  split at hok
  · next heq =>
      cases hok
      exact Or.inl ⟨rfl, Or.inl heq⟩
  · next cv heq =>
      split at hok
      · next hfal =>
          cases hok
          exact Or.inl ⟨rfl, Or.inr ⟨cv, heq, hfal⟩⟩
      · next hfal =>
          split at hok
          · next cs =>
              cases hmm : mapME (transformContent up) cs with
              | error e =>
                  rw [hmm] at hok
                  simp [Except.bind] at hok
              | ok cs2 =>
                  rw [hmm] at hok
                  simp only [Except.bind] at hok
                  cases hok
                  exact Or.inr ⟨cs, cs2, heq, hmm, rfl⟩
          · cases hok

theorem transformContent_ok_cases (up : UploadOracle) (c : PyDict)
    (c2 : JValue) (hok : transformContent up (.obj c) = .ok c2) :
    (c2 = .obj c ∧ (dictGet c (S "parts") = none ∨
      ∃ pv, dictGet c (S "parts") = some pv ∧ pyFalsy pv = true)) ∨
    (∃ parts parts2, dictGet c (S "parts") = some (.arr parts) ∧
      parts ≠ [] ∧ mapME (transformPart up) parts = .ok parts2 ∧
      c2 = .obj (dictSet c (S "parts") (.arr parts2))) ∨
    (∃ s, dictGet c (S "parts") = some (.str s) ∧ s ≠ []) ∨
    (∃ kvs, dictGet c (S "parts") = some (.obj kvs) ∧ kvs ≠ []) := by
  cases hget : dictGet c (S "parts") with
  | none =>
      have hval : transformContent up (.obj c) = .ok (.obj c) := by
        simp [transformContent, hget]
      rw [hval] at hok
      cases hok
      exact Or.inl ⟨rfl, Or.inl rfl⟩
  | some pv =>
      cases hfal : pyFalsy pv with
      | true =>
          have hval : transformContent up (.obj c) = .ok (.obj c) := by
            simp [transformContent, hget, hfal]
          rw [hval] at hok
          cases hok
          exact Or.inl ⟨rfl, Or.inr ⟨pv, rfl, hfal⟩⟩
      | false =>
          cases pv with
          | null => simp [pyFalsy] at hfal
          | bool b =>
              have hval : transformContent up (.obj c)
                  = .error .typeError := by
                simp [transformContent, hget, hfal]
              rw [hval] at hok
              cases hok
          | num n =>
              have hval : transformContent up (.obj c)
                  = .error .typeError := by
                simp [transformContent, hget, hfal]
              rw [hval] at hok
              cases hok
          | str s =>
              refine Or.inr (Or.inr (Or.inl ⟨s, rfl, ?_⟩))
              intro h0
              rw [h0] at hfal
              simp [pyFalsy] at hfal
          | obj kvs =>
              refine Or.inr (Or.inr (Or.inr ⟨kvs, rfl, ?_⟩))
              intro h0
              rw [h0] at hfal
              simp [pyFalsy] at hfal
          | arr parts =>
              have hne : parts ≠ [] := by
                intro h0
                rw [h0] at hfal
                simp [pyFalsy] at hfal
              cases hmm : mapME (transformPart up) parts with
              | error e =>
                  have hval : transformContent up (.obj c)
                      = .error e := by
                    simp [transformContent, hget, hfal, hmm, Except.bind]
                  rw [hval] at hok
                  cases hok
              | ok parts2 =>
                  have hval : transformContent up (.obj c)
                      = .ok (.obj (dictSet c (S "parts")
                          (.arr parts2))) := by
                    simp [transformContent, hget, hfal, hmm, Except.bind]
                  rw [hval] at hok
                  cases hok
                  exact Or.inr (Or.inl ⟨parts, parts2, rfl, hne, hmm, rfl⟩)

/-- Claim C5 (confirmed): `conform_body` is a frame-preserving rewrite.
Absent or falsy `contents` returns the body unchanged; a successful
transform only replaces the `contents` sequence (all other top-level keys
unchanged), replaces content records pointwise (so one content never alters
another), passes through content records without (truthy) parts, keeps all
non-`parts` fields of a content, and maps the parts sequence pointwise,
preserving its length and order. -/
theorem claim_C5_conform_frame (up : UploadOracle) (body : PyDict) :
    ((dictGet body (S "contents") = none ∨
      (∃ cv, dictGet body (S "contents") = some cv ∧ pyFalsy cv = true)) →
      conform_body up body = .ok body) ∧
    (∀ b2, conform_body up body = .ok b2 →
      (∀ k, k ≠ S "contents" → dictGet b2 k = dictGet body k) ∧
      (∀ cs, dictGet body (S "contents") = some (.arr cs) →
        ∃ cs2, dictGet b2 (S "contents") = some (.arr cs2) ∧
          cs2.length = cs.length ∧
          List.Forall₂ (fun c c2 => transformContent up c = .ok c2) cs cs2)) ∧
    (∀ (c : PyDict) c2, transformContent up (.obj c) = .ok c2 →
      ((dictGet c (S "parts") = none ∨
        (∃ pv, dictGet c (S "parts") = some pv ∧ pyFalsy pv = true)) →
        c2 = .obj c) ∧
      (∀ parts, dictGet c (S "parts") = some (.arr parts) → parts ≠ [] →
        ∃ parts2, c2 = .obj (dictSet c (S "parts") (.arr parts2)) ∧
          parts2.length = parts.length ∧
          List.Forall₂ (fun x y => transformPart up x = .ok y) parts parts2 ∧
          (∀ k, k ≠ S "parts" →
            dictGet (dictSet c (S "parts") (.arr parts2)) k
              = dictGet c k))) := by
  refine ⟨?_, ?_, ?_⟩
  · rintro (hnone | ⟨cv, hsome, hfal⟩)
    · unfold conform_body
      rw [hnone]
    · unfold conform_body
      rw [hsome]
      simp [hfal]
  · intro b2 hok
    rcases conform_body_ok_cases up body b2 hok with
      ⟨rfl, hemp⟩ | ⟨cs, cs2, hcs, hmm, rfl⟩
    · refine ⟨fun k _ => rfl, fun cs hcs => ?_⟩
      rcases hemp with hnone | ⟨cv, hsome, hfal⟩
      · rw [hnone] at hcs
        cases hcs
      · rw [hsome] at hcs
        cases hcs
        have hnil : cs = [] := by
          simpa [pyFalsy, List.isEmpty_iff] using hfal
        subst hnil
        exact ⟨[], hsome, rfl, List.Forall₂.nil⟩
    · refine ⟨fun k hk => dictGet_dictSet_ne body _ k _ hk,
        fun cs' hcs' => ?_⟩
      rw [hcs] at hcs'
      cases hcs'
      have hfa := (mapME_ok_iff (transformContent up) cs cs2).1 hmm
      exact ⟨cs2, dictGet_dictSet_self body _ _, hfa.length_eq.symm, hfa⟩
  · intro c c2 htc
    constructor
    · rintro (hnone | ⟨pv, hsome, hfal⟩)
      · rcases transformContent_ok_cases up c c2 htc with
          ⟨rfl, _⟩ | ⟨parts, parts2, hp, _, _, _⟩ | ⟨s, hp, _⟩ | ⟨kvs, hp, _⟩
        · rfl
        · rw [hnone] at hp
          cases hp
        · rw [hnone] at hp
          cases hp
        · rw [hnone] at hp
          cases hp
      · rcases transformContent_ok_cases up c c2 htc with
          ⟨rfl, _⟩ | ⟨parts, parts2, hp, hne, _, _⟩ | ⟨s, hp, hne⟩ |
          ⟨kvs, hp, hne⟩
        · rfl
        · rw [hsome] at hp
          cases hp
          simp [pyFalsy, List.isEmpty_iff] at hfal
          exact absurd hfal hne
        · rw [hsome] at hp
          cases hp
          simp [pyFalsy, List.isEmpty_iff] at hfal
          exact absurd hfal hne
        · rw [hsome] at hp
          cases hp
          simp [pyFalsy, List.isEmpty_iff] at hfal
          exact absurd hfal hne
    · intro parts hp hne
      rcases transformContent_ok_cases up c c2 htc with
        ⟨rfl, hemp⟩ | ⟨parts', parts2, hp', _, hmm, rfl⟩ | ⟨s, hp', _⟩ |
        ⟨kvs, hp', _⟩
      · rcases hemp with hnone | ⟨pv, hsome, hfal⟩
        · rw [hnone] at hp
          cases hp
        · rw [hsome] at hp
          cases hp
          simp [pyFalsy, List.isEmpty_iff] at hfal
          exact absurd hfal hne
      · rw [hp'] at hp
        cases hp
        have hfa := (mapME_ok_iff (transformPart up) parts parts2).1 hmm
        exact ⟨parts2, rfl, hfa.length_eq.symm, hfa,
          fun k hk => dictGet_dictSet_ne c _ k _ hk⟩
      · rw [hp'] at hp
        cases hp
      · rw [hp'] at hp
        cases hp

/-- Claim C5 witness: the identity case on a body without contents, and the
frame conditions on a transformed body with a `json` part and extra
top-level keys. -/
theorem claim_C5_witness :
    conform_body (fun _ => .error .httpStatusError) [(S "tools", .arr [])]
      = .ok [(S "tools", .arr [])] ∧
    conform_body (fun _ => .error .httpStatusError)
      [(S "contents", .arr [.obj [(S "parts", .arr
          [.obj [(S "json", .num 7)]])]]),
       (S "tools", .bool true)]
      = .ok [(S "contents", .arr [.obj [(S "parts", .arr
          [.obj [(S "text", .str (S "7"))]])]]),
             (S "tools", .bool true)] ∧
    dictGet [(S "contents", .arr [.obj [(S "parts", .arr
          [.obj [(S "text", .str (S "7"))]])]]),
             (S "tools", .bool true)] (S "tools")
      = dictGet [(S "contents", .arr [.obj [(S "parts", .arr
          [.obj [(S "json", .num 7)]])]]),
                 (S "tools", .bool true)] (S "tools") := by
  refine ⟨(claim_C5_conform_frame (fun _ => .error .httpStatusError)
      [(S "tools", .arr [])]).1 (Or.inl rfl), rfl, ?_⟩
  exact ((claim_C5_conform_frame (fun _ => .error .httpStatusError)
      [(S "contents", .arr [.obj [(S "parts", .arr
          [.obj [(S "json", .num 7)]])]]),
       (S "tools", .bool true)]).2.1 _ rfl).1 (S "tools") (by decide)

theorem splitComma_ne_nil (s : Str) : splitComma s ≠ [] := by
  cases s with
  | nil => simp [splitComma]
  | cons c rest =>
      simp only [splitComma]
      by_cases hc : c = ','
      · simp [hc]
      · rw [if_neg hc]
        cases h : splitComma rest with
        | nil => simp
        | cons t ts => simp

theorem splitComma_mem_subset (s : Str) (t : Str) (ht : t ∈ splitComma s) :
    ∀ c ∈ t, c ∈ s := by
  induction s generalizing t with
  | nil =>
      simp only [splitComma, List.mem_singleton] at ht
      subst ht
      intro c hc
      cases hc
  | cons d rest ih =>
      simp only [splitComma] at ht
      by_cases hd : d = ','
      · rw [if_pos hd] at ht
        rcases List.mem_cons.1 ht with rfl | ht
        · intro c hc
          cases hc
        · intro c hc
          exact List.mem_cons_of_mem _ (ih t ht c hc)
      · rw [if_neg hd] at ht
        cases hsp : splitComma rest with
        | nil => exact absurd hsp (splitComma_ne_nil rest)
        | cons t0 ts =>
            rw [hsp] at ht
            rcases List.mem_cons.1 ht with rfl | ht
            · intro c hc
              rcases List.mem_cons.1 hc with rfl | hc
              · exact List.mem_cons_self _ _
              · have : c ∈ rest :=
                  ih t0 (by rw [hsp]; exact List.mem_cons_self _ _) c hc
                exact List.mem_cons_of_mem _ this
            · intro c hc
              have : c ∈ rest :=
                ih t (by rw [hsp]; exact List.mem_cons_of_mem _ ht) c hc
              exact List.mem_cons_of_mem _ this

theorem stripSpaces_subset (t : Str) : ∀ c ∈ stripSpaces t, c ∈ t := by
  intro c hc
  unfold stripSpaces at hc
  have h1 := List.mem_reverse.1 hc
  have h2 := (List.dropWhile_sublist _).mem h1
  have h3 := List.mem_reverse.1 h2
  exact (List.dropWhile_sublist _).mem h3

theorem parseIntTok_some_digit (t : Str) (h : (parseIntTok t).isSome = true) :
    ∃ c, c ∈ t ∧ c.isDigit = true := by
  unfold parseIntTok at h
  by_cases he : (stripSpaces t).isEmpty = true
  · rw [if_pos he] at h
    cases h
  · rw [if_neg he] at h
    by_cases hd : (stripSpaces t).all Char.isDigit = true
    · cases hs : stripSpaces t with
      | nil =>
          rw [hs] at he
          exact absurd rfl he
      | cons c u =>
          have hmem : c ∈ stripSpaces t := by
            rw [hs]
            exact List.mem_cons_self c u
          have hdig : c.isDigit = true := List.all_eq_true.1 hd c hmem
          exact ⟨c, stripSpaces_subset t c hmem, hdig⟩
    · rw [if_neg hd] at h
      cases h

theorem mapOptionAll_eq_filterMap (f : α → Option β) (l : List α)
    (h : ∀ x ∈ l, (f x).isSome = true) :
    mapOptionAll f l = some (l.filterMap f) := by
  induction l with
  | nil => rfl
  | cons x xs ih =>
      obtain ⟨y, hy⟩ := Option.isSome_iff_exists.1
        (h x (List.mem_cons_self _ _))
      rw [List.filterMap_cons, hy]
      simp only [mapOptionAll, hy, Option.some_bind,
        ih (fun z hz => h z (List.mem_cons_of_mem _ hz)), Option.some_bind]

theorem insertSorted_ne_nil (x : Str) (l : List Str) :
    insertSorted x l ≠ [] := by
  cases l with
  | nil => simp [insertSorted]
  | cons y ys =>
      simp only [insertSorted]
      by_cases h1 : (x == y) = true
      · simp [h1]
      · rw [if_neg (by simp [h1])]
        by_cases h2 : strLt x y = true
        · simp [h2]
        · rw [if_neg (by simp [h2])]
          simp

theorem foldl_insertSorted_ne_nil (l : List Str) (acc : List Str)
    (hacc : acc ≠ []) :
    l.foldl (fun a x => insertSorted x a) acc ≠ [] := by
  induction l generalizing acc with
  | nil => exact hacc
  | cons x xs ih =>
      exact ih (insertSorted x acc) (insertSorted_ne_nil x acc)

theorem sortedDedup_ne_nil (x : Str) (l : List Str) :
    sortedDedup (x :: l) ≠ [] := by
  unfold sortedDedup
  rw [List.foldl_cons]
  exact foldl_insertSorted_ne_nil l _ (insertSorted_ne_nil x [])

/-- Claim C4 (amended): `expand_veo_error` agrees with the claim's reference
definition whenever every token of the support-code match parses as an
integer (and trivially when there is no match): a message without the marker
yields the bare error dict, and a matched code list yields the enriched
metadata with the deduplicated, sorted mapped reasons.  But on a message
whose matched group contains a token that is not an integer (such as
`"Support codes: ,"`), the function raises `ValueError` from `int()` instead
of returning the bare error dict the claim prescribes. -/
theorem claim_C4_expand_veo (msg model : Str) (h : veoTokensOk msg = true) :
    expand_veo_error msg model = .ok (expandSafetyErrorRef msg model) := by
  cases hs : scSearch msg with
  | none => simp [expand_veo_error, expandSafetyErrorRef, hs]
  | some grp =>
      have hall : ∀ t ∈ splitComma grp, (parseIntTok t).isSome = true := by
        have h' : (splitComma grp).all
            (fun t => (parseIntTok t).isSome) = true := by
          simpa [veoTokensOk, hs] using h
        exact fun t ht => List.all_eq_true.1 h' t ht
      have hmap := mapOptionAll_eq_filterMap parseIntTok (splitComma grp) hall
      have hanydig : grp.any Char.isDigit = true := by
        cases hsp : splitComma grp with
        | nil => exact absurd hsp (splitComma_ne_nil grp)
        | cons t0 ts =>
            obtain ⟨c, hct, hcd⟩ := parseIntTok_some_digit t0
              (hall t0 (by rw [hsp]; exact List.mem_cons_self _ _))
            exact List.any_eq_true.2
              ⟨c, splitComma_mem_subset grp t0
                (by rw [hsp]; exact List.mem_cons_self _ _) c hct, hcd⟩
      have hcodes : (splitComma grp).filterMap parseIntTok ≠ [] := by
        cases hsp : splitComma grp with
        | nil => exact absurd hsp (splitComma_ne_nil grp)
        | cons t0 ts =>
            obtain ⟨n, hn⟩ := Option.isSome_iff_exists.1
              (hall t0 (by rw [hsp]; exact List.mem_cons_self _ _))
            simp [List.filterMap_cons, hn]
      have hreasons : (sortedDedup
          (((splitComma grp).filterMap parseIntTok).map
            codeCategory)).isEmpty = false := by
        cases hfm : (splitComma grp).filterMap parseIntTok with
        | nil => exact absurd hfm hcodes
        | cons n ns =>
            rw [List.map_cons]
            simpa [List.isEmpty_iff] using
              sortedDedup_ne_nil (codeCategory n) (ns.map codeCategory)
      simp [expand_veo_error, expandSafetyErrorRef, hs, hmap, hanydig,
        hreasons]

/-- Claim C4 counterexample: `"Support codes: ,"` contains the marker but no
integers; the claim's reference returns the bare error dict, while the code
raises `ValueError` parsing the empty token — the two disagree. -/
theorem claim_C4_cex :
    expand_veo_error (S "Support codes: ,") (S "veo-3.1-generate-preview")
      = .error .valueError ∧
    expandSafetyErrorRef (S "Support codes: ,") (S "veo-3.1-generate-preview")
      = [(S "error", .str (S "Support codes: ,"))] ∧
    expand_veo_error (S "Support codes: ,") (S "veo-3.1-generate-preview")
      ≠ .ok (expandSafetyErrorRef (S "Support codes: ,")
          (S "veo-3.1-generate-preview")) := by
  refine ⟨rfl, rfl, ?_⟩
  intro hcontra
  have h1 : expand_veo_error (S "Support codes: ,")
      (S "veo-3.1-generate-preview") = .error .valueError := rfl
  rw [h1] at hcontra
  cases hcontra

/-- Claim C4 witness: the amended statement applied to the spec's example
codes, whose reasons come out as the sorted pair `child`, `sexual`; a
marker-free message keeps only the error key. -/
theorem claim_C4_witness :
    expand_veo_error (S "err. Support codes: 58061214, 90789179") (S "veo")
      = .ok (expandSafetyErrorRef
          (S "err. Support codes: 58061214, 90789179") (S "veo")) ∧
    expandSafetyErrorRef (S "err. Support codes: 58061214, 90789179")
        (S "veo")
      = [(S "error", .str (S "err. Support codes: 58061214, 90789179")),
         (S "metadata", .obj
           [(S "origin", .str (S "server")),
            (S "kind", .str (S "safety")),
            (S "reasons", .arr [.str (S "child"), .str (S "sexual")]),
            (S "model", .str (S "veo"))])] ∧
    expand_veo_error (S "no marker here") (S "veo")
      = .ok [(S "error", .str (S "no marker here"))] :=
  ⟨claim_C4_expand_veo (S "err. Support codes: 58061214, 90789179")
      (S "veo") (by decide), rfl, rfl⟩

theorem digitChar_isDigit (n : Nat) : (digitChar n).isDigit = true := by
  unfold digitChar
  split <;> decide

theorem digitVal_digitChar : ∀ n, n < 10 → digitVal (digitChar n) = n := by
  decide

theorem digitChar_ne_zero : ∀ n, 1 ≤ n → n < 10 → digitChar n ≠ '0' := by
  decide

theorem isDigit_not_ws (c : Char) (h : c.isDigit = true) : isWs c = false := by
  simp only [isWs, Bool.or_eq_false_iff, beq_eq_false_iff_ne]
  refine ⟨⟨⟨?_, ?_⟩, ?_⟩, ?_⟩ <;>
    · intro hc
      rw [hc] at h
      cases h

theorem digitsVal_append_single (ds : Str) (d : Char) :
    digitsVal (ds ++ [d]) = 10 * digitsVal ds + digitVal d := by
  simp [digitsVal, List.foldl_append]
  omega

theorem natDigitsAux_spec : ∀ fuel n, n < fuel →
    (∃ c cs, natDigitsAux fuel n = c :: cs ∧ (1 ≤ n → c ≠ '0')) ∧
    (∀ c ∈ natDigitsAux fuel n, c.isDigit = true) ∧
    digitsVal (natDigitsAux fuel n) = n := by
  intro fuel
  induction fuel with
  | zero => intro n h; omega
  | succ g ih =>
      intro n h
      by_cases h10 : n < 10
      · refine ⟨⟨digitChar n, [], by simp [natDigitsAux, h10],
          fun h1 => digitChar_ne_zero n h1 h10⟩, ?_, ?_⟩
        · intro c hc
          simp only [natDigitsAux, if_pos h10, List.mem_singleton] at hc
          subst hc
          exact digitChar_isDigit n
        · simp [natDigitsAux, h10, digitsVal, digitVal_digitChar n h10]
      · have hlt : n / 10 < g := by omega
        obtain ⟨⟨c, cs, heq, hzero⟩, hdig, hval⟩ := ih (n / 10) hlt
        have hrw : natDigitsAux (g + 1) n
            = natDigitsAux g (n / 10) ++ [digitChar (n % 10)] := by
          simp [natDigitsAux, h10]
        refine ⟨⟨c, cs ++ [digitChar (n % 10)], by simp [hrw, heq],
          fun _ => hzero (by omega)⟩, ?_, ?_⟩
        · intro d hd
          rw [hrw] at hd
          rcases List.mem_append.1 hd with hd | hd
          · exact hdig d hd
          · rw [List.mem_singleton.1 hd]
            exact digitChar_isDigit _
        · rw [hrw, digitsVal_append_single, hval,
            digitVal_digitChar _ (Nat.mod_lt _ (by omega))]
          omega

theorem natDigits_spec (n : Nat) :
    (∃ c cs, natDigits n = c :: cs ∧ (1 ≤ n → c ≠ '0')) ∧
    (∀ c ∈ natDigits n, c.isDigit = true) ∧
    digitsVal (natDigits n) = n :=
  natDigitsAux_spec (n + 1) n (Nat.lt_succ_self n)

theorem takeWhile_all_append (p : Char → Bool) (l r : Str)
    (hl : ∀ c ∈ l, p c = true) (hr : headIs p r = false) :
    (l ++ r).takeWhile p = l ∧ (l ++ r).dropWhile p = r := by
  induction l with
  | nil =>
      cases r with
      | nil => simp
      | cons d r' =>
          simp only [headIs] at hr
          simp [List.takeWhile_cons, List.dropWhile_cons, hr]
  | cons c t ih =>
      have hc := hl c (List.mem_cons_self c t)
      have := ih (fun x hx => hl x (List.mem_cons_of_mem _ hx))
      simp [List.takeWhile_cons, List.dropWhile_cons, hc, this.1, this.2]

theorem parseNatPart_natDigits (n : Nat) (rest : Str)
    (hrest : headIs Char.isDigit rest = false) :
    parseNatPart (natDigits n ++ rest) = some (n, rest) := by
  rcases Nat.eq_zero_or_pos n with rfl | hpos
  · rw [show natDigits 0 = ['0'] from rfl]
    simp [parseNatPart]
  · obtain ⟨⟨c, cs, heq, hzero⟩, hdig, hval⟩ := natDigits_spec n
    have hc0 : c ≠ '0' := hzero hpos
    have hmemc : c ∈ natDigits n := by
      rw [heq]
      exact List.mem_cons_self c cs
    have hcd : c.isDigit = true := hdig c hmemc
    have hcs : ∀ x ∈ cs, x.isDigit = true := by
      intro x hx
      refine hdig x ?_
      rw [heq]
      exact List.mem_cons_of_mem _ hx
    have hspan := takeWhile_all_append Char.isDigit cs rest hcs hrest
    rw [heq, List.cons_append]
    simp only [parseNatPart, if_neg hc0, hcd, if_true, hspan.1, hspan.2]
    rw [heq] at hval
    rw [hval]

theorem parseNumber_intDigits (n : Int) (rest : Str)
    (hd : headIs Char.isDigit rest = false)
    (hf : fracFollows rest = false) (he : expFollows rest = false) :
    parseNumber (intDigits n ++ rest) = some (n, rest) := by
  cases n with
  | ofNat m =>
      obtain ⟨⟨c, cs, heq, _⟩, hdig, _⟩ := natDigits_spec m
      have hmemc : c ∈ natDigits m := by
        rw [heq]
        exact List.mem_cons_self c cs
      have hcd : c.isDigit = true := hdig c hmemc
      have hcm : c ≠ '-' := by
        intro hc
        rw [hc] at hcd
        cases hcd
      have hpn := parseNatPart_natDigits m rest hd
      rw [show intDigits (Int.ofNat m) = natDigits m from rfl, heq,
        List.cons_append]
      rw [heq, List.cons_append] at hpn
      simp [parseNumber, hcm, hpn, hf, he]
  | negSucc m =>
      have hpn := parseNatPart_natDigits (m + 1) rest hd
      rw [show intDigits (Int.negSucc m) = '-' :: natDigits (m + 1) from rfl,
        List.cons_append]
      simp only [parseNumber, if_pos rfl, hpn, Option.some_bind, hf, he,
        Bool.or_false, Bool.false_eq_true, if_false]
      congr 1

theorem hexVal_hexDigitChar : ∀ k, k < 16 → hexVal (hexDigitChar k) = some k := by
  decide

theorem parseHex4_hex4 (n : Nat) (hn : n < 65536) (rest : Str) :
    parseHex4 (hex4 n ++ rest) = some (n, rest) := by
  have h1 : n / 4096 % 16 < 16 := Nat.mod_lt _ (by omega)
  have h2 : n / 256 % 16 < 16 := Nat.mod_lt _ (by omega)
  have h3 : n / 16 % 16 < 16 := Nat.mod_lt _ (by omega)
  have h4 : n % 16 < 16 := Nat.mod_lt _ (by omega)
  simp only [hex4, List.cons_append, List.nil_append, parseHex4,
    hexVal_hexDigitChar _ h1, hexVal_hexDigitChar _ h2,
    hexVal_hexDigitChar _ h3, hexVal_hexDigitChar _ h4, Option.some_bind]
  have hval : ((n / 4096 % 16 * 16 + n / 256 % 16) * 16 + n / 16 % 16) * 16
      + n % 16 = n := by omega
  rw [hval]

theorem parseStringBody_backslash (fuel : Nat) (z : Str) :
    parseStringBody (fuel + 1) ('\\' :: z)
      = (parseEscape z).bind fun cr =>
        (parseStringBody fuel cr.2).bind fun br =>
        some (cr.1 :: br.1, br.2) := rfl

theorem parseEscape_u (w : Str) :
    parseEscape ('u' :: w)
      = (parseHex4 w).bind fun nr =>
        if 55296 ≤ nr.1 ∧ nr.1 ≤ 56319 then
          match nr.2 with
          | '\\' :: 'u' :: r2 =>
              (parseHex4 r2).bind fun mr =>
              if 56320 ≤ mr.1 ∧ mr.1 ≤ 57343 then
                some (Char.ofNat (65536 + (nr.1 - 55296) * 1024
                  + (mr.1 - 56320)), mr.2)
              else none
          | _ => none
        else if 56320 ≤ nr.1 ∧ nr.1 ≤ 57343 then none
        else some (Char.ofNat nr.1, nr.2) := rfl

theorem parseStringBody_escapeChar (c : Char) (t : Str) (fuel : Nat) :
    parseStringBody (fuel + 1) (escapeChar c ++ t)
      = (parseStringBody fuel t).bind fun br =>
        some (c :: br.1, br.2) := by
  by_cases hq : c = '"'
  · subst hq
    rfl
  by_cases hbs : c = '\\'
  · subst hbs
    rfl
  by_cases hn : c = '\n'
  · subst hn
    rfl
  by_cases hr : c = '\r'
  · subst hr
    rfl
  by_cases ht : c = '\t'
  · subst ht
    rfl
  by_cases h8 : c.toNat = 8
  · have hc : c = Char.ofNat 8 := by
      rw [← h8, Char.ofNat_toNat]
    subst hc
    rfl
  by_cases h12 : c.toNat = 12
  · have hc : c = Char.ofNat 12 := by
      rw [← h12, Char.ofNat_toNat]
    subst hc
    rfl
  by_cases hprint : 32 ≤ c.toNat ∧ c.toNat ≤ 126
  · have hesc : escapeChar c = [c] := by
      simp [escapeChar, hq, hbs, hn, hr, ht, h8, h12, hprint.1, hprint.2]
    rw [hesc, List.cons_append]
    have hlt : ¬ c.toNat < 32 := by omega
    simp [parseStringBody, hq, hbs, hlt]
  · have hsur : c.toNat < 55296 ∨ (57343 < c.toNat ∧ c.toNat < 1114112) :=
      c.valid
    by_cases hbig : c.toNat < 65536
    · have hesc : escapeChar c = '\\' :: 'u' :: hex4 c.toNat := by
        rw [escapeChar]
        simp only [if_neg hq, if_neg hbs, if_neg hn, if_neg hr, if_neg ht,
          if_neg h8, if_neg h12]
        rw [if_neg (by omega), if_pos hbig]
      rw [hesc, List.cons_append, parseStringBody_backslash,
        List.cons_append, parseEscape_u, parseHex4_hex4 _ hbig t]
      simp only [Option.some_bind]
      rw [if_neg (by omega), if_neg (by omega), Char.ofNat_toNat]
      rfl
    · have hvalid : c.toNat < 1114112 := by omega
      have hm : c.toNat - 65536 < 1048576 := by omega
      have hdiv : (c.toNat - 65536) / 1024 ≤ 1023 := by omega
      have hmod : (c.toNat - 65536) % 1024 ≤ 1023 := by omega
      have hhi : 55296 + (c.toNat - 65536) / 1024 < 65536 := by omega
      have hlo : 56320 + (c.toNat - 65536) % 1024 < 65536 := by omega
      have hesc : escapeChar c
          = ('\\' :: 'u' :: hex4 (55296 + (c.toNat - 65536) / 1024)) ++
            ('\\' :: 'u' :: hex4 (56320 + (c.toNat - 65536) % 1024)) := by
        rw [escapeChar]
        simp only [if_neg hq, if_neg hbs, if_neg hn, if_neg hr, if_neg ht,
          if_neg h8, if_neg h12]
        rw [if_neg hprint, if_neg (by omega)]
      rw [hesc]
      rw [show (('\\' :: 'u' :: hex4 (55296 + (c.toNat - 65536) / 1024)) ++
            ('\\' :: 'u' :: hex4 (56320 + (c.toNat - 65536) % 1024))) ++ t
          = '\\' :: ('u' :: (hex4 (55296 + (c.toNat - 65536) / 1024) ++
            ('\\' :: 'u' :: (hex4 (56320 + (c.toNat - 65536) % 1024) ++ t))))
          from by simp]
      generalize hn1 : 55296 + (c.toNat - 65536) / 1024 = n1 at hhi ⊢
      generalize hn2 : 56320 + (c.toNat - 65536) % 1024 = n2 at hlo ⊢
      rw [parseStringBody_backslash, parseEscape_u]
      rw [parseHex4_hex4 _ hhi]
      rw [Option.some_bind]
      show ((if 55296 ≤ n1 ∧ n1 ≤ 56319 then
              (parseHex4 (hex4 n2 ++ t)).bind fun mr =>
                if 56320 ≤ mr.1 ∧ mr.1 ≤ 57343 then
                  some (Char.ofNat (65536 + (n1 - 55296) * 1024
                    + (mr.1 - 56320)), mr.2)
                else none
            else if 56320 ≤ n1 ∧ n1 ≤ 57343 then none
            else some (Char.ofNat n1, '\\' :: 'u' :: (hex4 n2 ++ t))).bind
            fun a => (parseStringBody fuel a.2).bind fun br =>
              some (a.1 :: br.1, br.2))
          = (parseStringBody fuel t).bind fun br => some (c :: br.1, br.2)
      rw [if_pos (show 55296 ≤ n1 ∧ n1 ≤ 56319 from by
        constructor <;> omega)]
      rw [parseHex4_hex4 _ hlo]
      rw [Option.some_bind]
      show ((if 56320 ≤ n2 ∧ n2 ≤ 57343 then
              some (Char.ofNat (65536 + (n1 - 55296) * 1024
                + (n2 - 56320)), t)
            else none).bind
            fun a => (parseStringBody fuel a.2).bind fun br =>
              some (a.1 :: br.1, br.2))
          = (parseStringBody fuel t).bind fun br => some (c :: br.1, br.2)
      rw [if_pos (show 56320 ≤ n2 ∧ n2 ≤ 57343 from by
        constructor <;> omega)]
      have hch : Char.ofNat (65536 + (n1 - 55296) * 1024 + (n2 - 56320))
          = c := by
        have hval : 65536 + (n1 - 55296) * 1024 + (n2 - 56320)
            = c.toNat := by
          have hdm := Nat.div_add_mod (c.toNat - 65536) 1024
          omega
        rw [hval, Char.ofNat_toNat]
      rw [hch]
      rfl

theorem parseStringBody_escapeStr : ∀ (s t : Str) (fuel : Nat),
    parseStringBody (s.length + fuel + 1) (escapeStr s ++ ('"' :: t))
      = some (s, t) := by
  intro s
  induction s with
  | nil =>
      intro t fuel
      rfl
  | cons c cs ih =>
      intro t fuel
      rw [show escapeStr (c :: cs) = escapeChar c ++ escapeStr cs from rfl,
        List.append_assoc,
        show (c :: cs).length + fuel + 1 = (cs.length + fuel + 1) + 1 from by
          simp only [List.length_cons]
          omega,
        parseStringBody_escapeChar, ih t fuel, Option.some_bind]

theorem escapeChar_length_pos (c : Char) : 1 ≤ (escapeChar c).length := by
  simp only [escapeChar]
  split_ifs <;> simp [hex4]

theorem escapeStr_length_ge (s : Str) : s.length ≤ (escapeStr s).length := by
  induction s with
  | nil => simp [escapeStr]
  | cons c cs ih =>
      have := escapeChar_length_pos c
      simp only [escapeStr, List.length_append, List.length_cons]
      omega

theorem parseStringBody_escapeStr_lt (s t : Str) (g : Nat)
    (hg : s.length < g) :
    parseStringBody g (escapeStr s ++ ('"' :: t)) = some (s, t) := by
  obtain ⟨k, rfl⟩ : ∃ k, g = s.length + k + 1 :=
    ⟨g - s.length - 1, by omega⟩
  exact parseStringBody_escapeStr s t k


/-! Lemmas for the `json.loads` / `json.dumps` round trip (claim C9). -/

theorem numBoundary_nil : numBoundary [] = true := rfl

theorem numBoundary_comma (w : Str) : numBoundary (',' :: w) = true := rfl

theorem numBoundary_rbracket (w : Str) : numBoundary (']' :: w) = true := rfl

theorem numBoundary_rbrace (w : Str) : numBoundary ('}' :: w) = true := rfl

theorem numBoundary_spec (r : Str) (h : numBoundary r = true) :
    headIs Char.isDigit r = false ∧ fracFollows r = false ∧
    expFollows r = false := by
  simp only [numBoundary, Bool.not_eq_true', Bool.or_eq_false_iff] at h
  exact ⟨h.1.1, h.1.2, h.2⟩

theorem skipWs_cons_of_not (c : Char) (w : Str) (h : isWs c = false) :
    skipWs (c :: w) = c :: w := by
  simp [skipWs, List.dropWhile_cons, h]

theorem parseValue_space (n : Nat) (s : Str) :
    parseValue n (' ' :: s) = parseValue n s := by
  cases n with
  | zero => rfl
  | succ n => rfl

theorem parseValue_pre (n : Nat) (pre s : Str)
    (hpre : pre = [] ∨ pre = [' ']) :
    parseValue n (pre ++ s) = parseValue n s := by
  rcases hpre with rfl | rfl
  · rfl
  · exact parseValue_space n s

theorem parseMembersWith_space (pv : Str → Option (JValue × Str))
    (fuel : Nat) (w : Str) :
    parseMembersWith pv fuel (' ' :: w) = parseMembersWith pv fuel w := by
  cases fuel with
  | zero => rfl
  | succ f => rfl

theorem parseValue_quote (n : Nat) (w : Str) :
    parseValue (n + 1) ('"' :: w)
      = (parseStringBody (w.length + 1) w).bind fun br =>
        some (.str br.1, br.2) := rfl

theorem parseValue_lbracket (n : Nat) (w : Str) :
    parseValue (n + 1) ('[' :: w)
      = (if headChar ']' (skipWs w) then some (.arr [], (skipWs w).drop 1)
         else (parseElemsWith (parseValue n) (w.length + 1) w).bind fun lr =>
           some (.arr lr.1, lr.2)) := rfl

theorem parseValue_lbrace (n : Nat) (w : Str) :
    parseValue (n + 1) ('{' :: w)
      = (if headChar '}' (skipWs w) then some (.obj [], (skipWs w).drop 1)
         else (parseMembersWith (parseValue n) (w.length + 1) w).bind fun lr =>
           some (.obj (buildDict lr.1), lr.2)) := rfl

theorem parseMembersWith_quote (pv : Str → Option (JValue × Str))
    (f : Nat) (w : Str) :
    parseMembersWith pv (f + 1) ('"' :: w)
      = (parseStringBody (w.length + 1) w).bind fun kr =>
        if headChar ':' (skipWs kr.2) then
          (pv ((skipWs kr.2).drop 1)).bind fun vr =>
          if headChar ',' (skipWs vr.2) then
            (parseMembersWith pv f ((skipWs vr.2).drop 1)).bind fun lr =>
            some ((kr.1, vr.1) :: lr.1, lr.2)
          else if headChar '}' (skipWs vr.2) then
            some ([(kr.1, vr.1)], (skipWs vr.2).drop 1)
          else none
        else none := rfl

theorem isDigit_ne_of (c d : Char) (hc : c.isDigit = true)
    (hd : d.isDigit = false) : c ≠ d := by
  intro he
  rw [he] at hc
  rw [hc] at hd
  cases hd

theorem parseValue_other (n : Nat) (c : Char) (w : Str)
    (hws : isWs c = false) (hn : c ≠ 'n') (ht : c ≠ 't') (hf : c ≠ 'f')
    (hq : c ≠ '"') (hlb : c ≠ '[') (hlc : c ≠ '{') :
    parseValue (n + 1) (c :: w)
      = (parseNumber (c :: w)).bind fun nr => some (.num nr.1, nr.2) := by
  have hs : skipWs (c :: w) = c :: w := skipWs_cons_of_not c w hws
  simp only [parseValue, hs, if_neg hn, if_neg ht, if_neg hf, if_neg hq,
    if_neg hlb, if_neg hlc]

theorem dumps_head (v : JValue) : ∃ c w, dumps v = c :: w ∧
    isWs c = false ∧ c ≠ ']' ∧ c ≠ '}' := by
  cases v with
  | null => exact ⟨'n', S "ull", rfl, by decide, by decide, by decide⟩
  | bool b =>
      cases b with
      | false => exact ⟨'f', S "alse", rfl, by decide, by decide, by decide⟩
      | true => exact ⟨'t', S "rue", rfl, by decide, by decide, by decide⟩
  | num m =>
      cases m with
      | ofNat k =>
          obtain ⟨⟨c, cs, heq, _⟩, hdig, _⟩ := natDigits_spec k
          have hcd : c.isDigit = true := by
            refine hdig c ?_
            rw [heq]
            exact List.mem_cons_self c cs
          refine ⟨c, cs, ?_, isDigit_not_ws c hcd,
            isDigit_ne_of c ']' hcd (by decide),
            isDigit_ne_of c '}' hcd (by decide)⟩
          rw [show dumps (.num (Int.ofNat k)) = natDigits k from rfl]
          exact heq
      | negSucc k =>
          exact ⟨'-', natDigits (k + 1), rfl, by decide, by decide, by decide⟩
  | str s => exact ⟨'"', escapeStr s ++ ['"'], rfl, by decide, by decide,
      by decide⟩
  | arr xs => exact ⟨'[', dumpsElems xs ++ [']'], rfl, by decide, by decide,
      by decide⟩
  | obj kvs => exact ⟨'{', dumpsEntries kvs ++ ['}'], rfl, by decide,
      by decide, by decide⟩

theorem dumpsElems_head (xs : List JValue) (h : xs ≠ []) :
    ∃ c w, dumpsElems xs = c :: w ∧ isWs c = false ∧ c ≠ ']' := by
  cases xs with
  | nil => exact absurd rfl h
  | cons y ys =>
      obtain ⟨c, w, hcw, hw1, hw2, _⟩ := dumps_head y
      cases ys with
      | nil =>
          refine ⟨c, w, ?_, hw1, hw2⟩
          rw [show dumpsElems [y] = dumps y from rfl]
          exact hcw
      | cons z zs =>
          refine ⟨c, w ++ (S ", " ++ dumpsElems (z :: zs)), ?_, hw1, hw2⟩
          rw [show dumpsElems (y :: z :: zs)
              = dumps y ++ (S ", " ++ dumpsElems (z :: zs)) from rfl, hcw,
            List.cons_append]

theorem dumpsEntries_head (kvs : List (Str × JValue)) (h : kvs ≠ []) :
    ∃ w, dumpsEntries kvs = '"' :: w := by
  cases kvs with
  | nil => exact absurd rfl h
  | cons kv tl =>
      obtain ⟨k, v⟩ := kv
      cases tl with
      | nil => exact ⟨_, rfl⟩
      | cons e tl2 => exact ⟨_, rfl⟩

theorem dumps_length_pos (v : JValue) : 1 ≤ (dumps v).length := by
  obtain ⟨c, w, hcw, _, _, _⟩ := dumps_head v
  rw [hcw]
  simp

theorem dumpsElems_length_ge (xs : List JValue) :
    xs.length ≤ (dumpsElems xs).length := by
  induction xs with
  | nil => simp [dumpsElems]
  | cons x ys ih =>
      cases ys with
      | nil =>
          have := dumps_length_pos x
          rw [show dumpsElems [x] = dumps x from rfl]
          simp only [List.length_cons, List.length_nil]
          omega
      | cons y zs =>
          have h1 := dumps_length_pos x
          have hS : (S ", ").length = 2 := rfl
          rw [show dumpsElems (x :: y :: zs)
              = dumps x ++ (S ", " ++ dumpsElems (y :: zs)) from rfl]
          simp only [List.length_append, List.length_cons] at ih ⊢
          omega

theorem dumpsEntries_length_ge (kvs : List (Str × JValue)) :
    kvs.length ≤ (dumpsEntries kvs).length := by
  induction kvs with
  | nil => simp [dumpsEntries]
  | cons kv tl ih =>
      obtain ⟨k, v⟩ := kv
      cases tl with
      | nil =>
          rw [show dumpsEntries [(k, v)]
              = '"' :: (escapeStr k ++ ('"' :: (S ": " ++ dumps v)))
              from rfl]
          simp
      | cons e tl2 =>
          have hS : (S ", ").length = 2 := rfl
          rw [show dumpsEntries ((k, v) :: e :: tl2)
              = ('"' :: (escapeStr k ++ ('"' :: (S ": " ++ dumps v)))) ++
                (S ", " ++ dumpsEntries (e :: tl2)) from rfl]
          simp only [List.length_append, List.length_cons] at ih ⊢
          omega

theorem dumps_mem_elems_le (xs : List JValue) (x : JValue) (hx : x ∈ xs) :
    (dumps x).length ≤ (dumpsElems xs).length := by
  induction xs with
  | nil => exact absurd hx (List.not_mem_nil x)
  | cons y ys ih =>
      rcases List.mem_cons.mp hx with rfl | hmem
      · cases ys with
        | nil =>
            rw [show dumpsElems [x] = dumps x from rfl]
        | cons z zs =>
            rw [show dumpsElems (x :: z :: zs)
                = dumps x ++ (S ", " ++ dumpsElems (z :: zs)) from rfl]
            simp only [List.length_append]
            omega
      · cases ys with
        | nil => exact absurd hmem (List.not_mem_nil x)
        | cons z zs =>
            have := ih hmem
            rw [show dumpsElems (y :: z :: zs)
                = dumps y ++ (S ", " ++ dumpsElems (z :: zs)) from rfl]
            simp only [List.length_append] at this ⊢
            omega

theorem dumps_mem_entries_le (kvs : List (Str × JValue)) (kv : Str × JValue)
    (hkv : kv ∈ kvs) : (dumps kv.2).length ≤ (dumpsEntries kvs).length := by
  induction kvs with
  | nil => exact absurd hkv (List.not_mem_nil kv)
  | cons e tl ih =>
      obtain ⟨k0, v0⟩ := e
      rcases List.mem_cons.mp hkv with rfl | hmem
      · cases tl with
        | nil =>
            rw [show dumpsEntries [(k0, v0)]
                = '"' :: (escapeStr k0 ++ ('"' :: (S ": " ++ dumps v0)))
                from rfl]
            simp only [List.length_cons, List.length_append]
            omega
        | cons e2 tl2 =>
            rw [show dumpsEntries ((k0, v0) :: e2 :: tl2)
                = ('"' :: (escapeStr k0 ++ ('"' :: (S ": " ++ dumps v0)))) ++
                  (S ", " ++ dumpsEntries (e2 :: tl2)) from rfl]
            simp only [List.length_cons, List.length_append]
            omega
      · cases tl with
        | nil => exact absurd hmem (List.not_mem_nil kv)
        | cons e2 tl2 =>
            have := ih hmem
            rw [show dumpsEntries ((k0, v0) :: e2 :: tl2)
                = ('"' :: (escapeStr k0 ++ ('"' :: (S ": " ++ dumps v0)))) ++
                  (S ", " ++ dumpsEntries (e2 :: tl2)) from rfl]
            simp only [List.length_cons, List.length_append] at this ⊢
            omega

theorem wfList_mem : ∀ (xs : List JValue), wfList xs = true →
    ∀ x ∈ xs, wellFormed x = true := by
  intro xs
  induction xs with
  | nil => intro _ x hx; exact absurd hx (List.not_mem_nil x)
  | cons y ys ih =>
      intro h x hx
      simp only [wfList, Bool.and_eq_true] at h
      rcases List.mem_cons.mp hx with rfl | hmem
      · exact h.1
      · exact ih h.2 x hmem

theorem wfEntries_mem_val : ∀ (kvs : List (Str × JValue)),
    wfEntries kvs = true → ∀ kv ∈ kvs, wellFormed kv.2 = true := by
  intro kvs
  induction kvs with
  | nil => intro _ kv hkv; exact absurd hkv (List.not_mem_nil kv)
  | cons e tl ih =>
      intro h kv hkv
      obtain ⟨k0, v0⟩ := e
      simp only [wfEntries, Bool.and_eq_true] at h
      rcases List.mem_cons.mp hkv with rfl | hmem
      · exact h.2.1
      · exact ih h.2.2 kv hmem

theorem dictSet_append_of_not_mem : ∀ (d : PyDict) (k : Str) (v : JValue),
    (∀ kv ∈ d, ¬(kv.1 = k)) → dictSet d k v = d ++ [(k, v)] := by
  intro d
  induction d with
  | nil => intro k v _; rfl
  | cons e tl ih =>
      intro k v h
      obtain ⟨k0, v0⟩ := e
      have hk0 : ¬(k0 = k) := h (k0, v0) (List.mem_cons_self _ _)
      simp only [dictSet, if_neg hk0, List.cons_append]
      rw [ih k v (fun kv hkv => h kv (List.mem_cons_of_mem _ hkv))]

theorem foldl_dictSet_eq : ∀ (kvs : List (Str × JValue)) (acc : PyDict),
    wfEntries kvs = true →
    (∀ kv ∈ kvs, ∀ kv2 ∈ acc, ¬(kv2.1 = kv.1)) →
    kvs.foldl (fun d kv => dictSet d kv.1 kv.2) acc = acc ++ kvs := by
  intro kvs
  induction kvs with
  | nil => intro acc _ _; simp
  | cons e tl ih =>
      intro acc hwf hfresh
      obtain ⟨k0, v0⟩ := e
      simp only [wfEntries, Bool.and_eq_true] at hwf
      rw [List.foldl_cons]
      have hstep : dictSet acc k0 v0 = acc ++ [(k0, v0)] :=
        dictSet_append_of_not_mem acc k0 v0
          (fun kv2 h2 => hfresh (k0, v0) (List.mem_cons_self _ _) kv2 h2)
      have hfresh2 : ∀ kv ∈ tl, ∀ kv2 ∈ acc ++ [(k0, v0)],
          ¬(kv2.1 = kv.1) := by
        intro kv hkv kv2 h2
        rcases List.mem_append.mp h2 with ha | hb
        · exact hfresh kv (List.mem_cons_of_mem _ hkv) kv2 ha
        · have hb2 : kv2 = (k0, v0) := List.mem_singleton.mp hb
          subst hb2
          have hall := hwf.1
          rw [List.all_eq_true] at hall
          have hne := hall kv hkv
          simp only [Bool.not_eq_true', beq_eq_false_iff_ne] at hne
          exact fun he => hne he.symm
      show List.foldl (fun d kv => dictSet d kv.1 kv.2)
          (dictSet acc k0 v0) tl = acc ++ ((k0, v0) :: tl)
      rw [hstep, ih (acc ++ [(k0, v0)]) hwf.2.2 hfresh2]
      simp

theorem buildDict_wf (kvs : List (Str × JValue))
    (h : wfEntries kvs = true) : buildDict kvs = kvs := by
  have hmain := foldl_dictSet_eq kvs [] h
    (fun kv _ kv2 h2 => absurd h2 (List.not_mem_nil kv2))
  simpa [buildDict] using hmain


theorem parseElemsWith_dumps (n : Nat) :
    ∀ (xs : List JValue) (fuel : Nat) (rest pre : Str), xs ≠ [] →
    xs.length ≤ fuel → (pre = [] ∨ pre = [' ']) →
    (∀ x ∈ xs, ∀ r, numBoundary r = true →
      parseValue n (dumps x ++ r) = some (x, r)) →
    parseElemsWith (parseValue n) fuel
      (pre ++ (dumpsElems xs ++ (']' :: rest))) = some (xs, rest) := by
  intro xs
  induction xs with
  | nil => intro fuel rest pre hne; exact absurd rfl hne
  | cons x ys ih =>
      intro fuel rest pre _ hfuel hpre hpv
      obtain ⟨f, rfl⟩ : ∃ f, fuel = f + 1 := by
        cases fuel with
        | zero => exact absurd hfuel (by simp)
        | succ f => exact ⟨f, rfl⟩
      have hxmem : x ∈ x :: ys := List.mem_cons_self x ys
      cases ys with
      | nil =>
          simp only [parseElemsWith]
          rw [show dumpsElems [x] = dumps x from rfl]
          rw [parseValue_pre n pre _ hpre]
          rw [hpv x hxmem (']' :: rest) (numBoundary_rbracket rest)]
          rfl
      | cons y zs =>
          simp only [parseElemsWith]
          have hassoc : dumpsElems (x :: y :: zs) ++ (']' :: rest)
              = dumps x ++ (',' :: ' ' ::
                  (dumpsElems (y :: zs) ++ (']' :: rest))) := by
            rw [show dumpsElems (x :: y :: zs)
                = dumps x ++ (S ", " ++ dumpsElems (y :: zs)) from rfl]
            simp [show S ", " = [',', ' '] from rfl, List.append_assoc]
          rw [hassoc]
          rw [parseValue_pre n pre _ hpre]
          rw [hpv x hxmem _ (numBoundary_comma _)]
          rw [Option.some_bind]
          have hih := ih f rest [' '] (by simp)
            (by simp only [List.length_cons] at hfuel ⊢; omega)
            (Or.inr rfl)
            (fun z hz r hr => hpv z (List.mem_cons_of_mem x hz) r hr)
          show (parseElemsWith (parseValue n) f
              ([' '] ++ (dumpsElems (y :: zs) ++ (']' :: rest)))).bind
              (fun lr => some (x :: lr.1, lr.2)) = some (x :: y :: zs, rest)
          rw [hih]
          rfl

theorem parseMembersWith_dumps (n : Nat) :
    ∀ (kvs : List (Str × JValue)) (fuel : Nat) (rest pre : Str), kvs ≠ [] →
    kvs.length ≤ fuel → (pre = [] ∨ pre = [' ']) →
    (∀ kv ∈ kvs, ∀ r, numBoundary r = true →
      parseValue n (dumps kv.2 ++ r) = some (kv.2, r)) →
    parseMembersWith (parseValue n) fuel
      (pre ++ (dumpsEntries kvs ++ ('}' :: rest))) = some (kvs, rest) := by
  intro kvs
  induction kvs with
  | nil => intro fuel rest pre hne; exact absurd rfl hne
  | cons kv tl ih =>
      intro fuel rest pre _ hfuel hpre hpv
      obtain ⟨k, v⟩ := kv
      obtain ⟨f, rfl⟩ : ∃ f, fuel = f + 1 := by
        cases fuel with
        | zero => exact absurd hfuel (by simp)
        | succ f => exact ⟨f, rfl⟩
      have hkvmem : (k, v) ∈ (k, v) :: tl := List.mem_cons_self _ _
      have hpm : ∀ w, parseMembersWith (parseValue n) (f + 1) (pre ++ w)
          = parseMembersWith (parseValue n) (f + 1) w := by
        intro w
        rcases hpre with rfl | rfl
        · rfl
        · exact parseMembersWith_space (parseValue n) (f + 1) w
      cases tl with
      | nil =>
          have hflat : dumpsEntries [(k, v)] ++ ('}' :: rest)
              = '"' :: (escapeStr k ++ ('"' :: (':' :: ' ' ::
                  (dumps v ++ ('}' :: rest))))) := by
            rw [show dumpsEntries [(k, v)]
                = '"' :: (escapeStr k ++ ('"' :: (S ": " ++ dumps v)))
                from rfl]
            simp [show S ": " = [':', ' '] from rfl, List.append_assoc]
          rw [hpm, hflat, parseMembersWith_quote]
          rw [parseStringBody_escapeStr_lt k _ _ (by
            have := escapeStr_length_ge k
            simp only [List.length_append, List.length_cons]
            omega)]
          rw [Option.some_bind]
          show ((parseValue n (' ' :: (dumps v ++ ('}' :: rest)))).bind
              fun vr =>
              if headChar ',' (skipWs vr.2) then
                (parseMembersWith (parseValue n) f
                    ((skipWs vr.2).drop 1)).bind fun lr =>
                some ((k, vr.1) :: lr.1, lr.2)
              else if headChar '}' (skipWs vr.2) then
                some ([(k, vr.1)], (skipWs vr.2).drop 1)
              else none) = some ([(k, v)], rest)
          rw [parseValue_space]
          rw [hpv (k, v) hkvmem ('}' :: rest) (numBoundary_rbrace rest)]
          rfl
      | cons e tl2 =>
          have hflat : dumpsEntries ((k, v) :: e :: tl2) ++ ('}' :: rest)
              = '"' :: (escapeStr k ++ ('"' :: (':' :: ' ' ::
                  (dumps v ++ (',' :: ' ' ::
                    (dumpsEntries (e :: tl2) ++ ('}' :: rest))))))) := by
            rw [show dumpsEntries ((k, v) :: e :: tl2)
                = ('"' :: (escapeStr k ++ ('"' :: (S ": " ++ dumps v)))) ++
                  (S ", " ++ dumpsEntries (e :: tl2)) from rfl]
            simp [show S ": " = [':', ' '] from rfl,
              show S ", " = [',', ' '] from rfl, List.append_assoc]
          rw [hpm, hflat, parseMembersWith_quote]
          rw [parseStringBody_escapeStr_lt k _ _ (by
            have := escapeStr_length_ge k
            simp only [List.length_append, List.length_cons]
            omega)]
          rw [Option.some_bind]
          show ((parseValue n (' ' :: (dumps v ++ (',' :: ' ' ::
              (dumpsEntries (e :: tl2) ++ ('}' :: rest)))))).bind fun vr =>
              if headChar ',' (skipWs vr.2) then
                (parseMembersWith (parseValue n) f
                    ((skipWs vr.2).drop 1)).bind fun lr =>
                some ((k, vr.1) :: lr.1, lr.2)
              else if headChar '}' (skipWs vr.2) then
                some ([(k, vr.1)], (skipWs vr.2).drop 1)
              else none) = some ((k, v) :: e :: tl2, rest)
          rw [parseValue_space]
          rw [hpv (k, v) hkvmem _ (numBoundary_comma _)]
          rw [Option.some_bind]
          have hih := ih f rest [' '] (by simp)
            (by simp only [List.length_cons] at hfuel ⊢; omega)
            (Or.inr rfl)
            (fun kv2 h2 r hr => hpv kv2 (List.mem_cons_of_mem _ h2) r hr)
          show (parseMembersWith (parseValue n) f
              ([' '] ++ (dumpsEntries (e :: tl2) ++ ('}' :: rest)))).bind
              (fun lr => some ((k, v) :: lr.1, lr.2))
            = some ((k, v) :: e :: tl2, rest)
          rw [hih]
          rfl


theorem parseValue_dumps (n : Nat) : ∀ (v : JValue) (rest : Str),
    (dumps v).length < n → wellFormed v = true → numBoundary rest = true →
    parseValue n (dumps v ++ rest) = some (v, rest) := by
  induction n with
  | zero => intro v rest h _ _; exact absurd h (by omega)
  | succ n ih =>
      intro v rest hlen hwf hnb
      cases v with
      | null => rfl
      | bool b => cases b with
          | false => rfl
          | true => rfl
      | num m =>
          obtain ⟨hd1, hd2, hd3⟩ := numBoundary_spec rest hnb
          cases m with
          | ofNat k =>
              obtain ⟨⟨c, cs, heq, _⟩, hdig, _⟩ := natDigits_spec k
              have hcd : c.isDigit = true := by
                refine hdig c ?_
                rw [heq]
                exact List.mem_cons_self c cs
              have hstep := parseValue_other n c (cs ++ rest)
                (isDigit_not_ws c hcd)
                (isDigit_ne_of c 'n' hcd (by decide))
                (isDigit_ne_of c 't' hcd (by decide))
                (isDigit_ne_of c 'f' hcd (by decide))
                (isDigit_ne_of c '"' hcd (by decide))
                (isDigit_ne_of c '[' hcd (by decide))
                (isDigit_ne_of c '{' hcd (by decide))
              rw [show dumps (.num (Int.ofNat k)) = natDigits k from rfl,
                heq, List.cons_append, hstep,
                show c :: (cs ++ rest) = (c :: cs) ++ rest from rfl, ← heq,
                show natDigits k = intDigits (Int.ofNat k) from rfl,
                parseNumber_intDigits (Int.ofNat k) rest hd1 hd2 hd3]
              rfl
          | negSucc k =>
              have hstep := parseValue_other n '-'
                (natDigits (k + 1) ++ rest) (by decide) (by decide)
                (by decide) (by decide) (by decide) (by decide) (by decide)
              rw [show dumps (.num (Int.negSucc k))
                  = '-' :: natDigits (k + 1) from rfl, List.cons_append,
                hstep,
                show '-' :: (natDigits (k + 1) ++ rest)
                  = intDigits (Int.negSucc k) ++ rest from by
                  rw [show intDigits (Int.negSucc k)
                      = '-' :: natDigits (k + 1) from rfl,
                    List.cons_append],
                parseNumber_intDigits (Int.negSucc k) rest hd1 hd2 hd3]
              rfl
      | str s =>
          have hassoc : dumps (.str s) ++ rest
              = '"' :: (escapeStr s ++ ('"' :: rest)) := by
            rw [show dumps (.str s)
                = '"' :: (escapeStr s ++ ['"']) from rfl]
            simp [List.append_assoc]
          rw [hassoc, parseValue_quote,
            parseStringBody_escapeStr_lt s rest
              ((escapeStr s ++ ('"' :: rest)).length + 1) (by
                have := escapeStr_length_ge s
                simp only [List.length_append, List.length_cons]
                omega)]
          rfl
      | arr xs =>
          cases xs with
          | nil => rfl
          | cons y ys =>
              have hassoc : dumps (.arr (y :: ys)) ++ rest
                  = '[' :: (dumpsElems (y :: ys) ++ (']' :: rest)) := by
                rw [show dumps (.arr (y :: ys))
                    = '[' :: (dumpsElems (y :: ys) ++ [']']) from rfl]
                simp [List.append_assoc]
              rw [hassoc, parseValue_lbracket]
              obtain ⟨c0, w0, hE, hc1, hc2⟩ :=
                dumpsElems_head (y :: ys) (by simp)
              have hskip : skipWs (dumpsElems (y :: ys) ++ (']' :: rest))
                  = c0 :: (w0 ++ (']' :: rest)) := by
                rw [hE, List.cons_append]
                exact skipWs_cons_of_not c0 _ hc1
              have hhc : headChar ']'
                  (skipWs (dumpsElems (y :: ys) ++ (']' :: rest)))
                  = false := by
                rw [hskip,
                  show headChar ']' (c0 :: (w0 ++ (']' :: rest)))
                    = (c0 == ']') from rfl]
                exact beq_eq_false_iff_ne.mpr hc2
              rw [if_neg (by simp [hhc])]
              have hfuel : (y :: ys).length
                  ≤ (dumpsElems (y :: ys) ++ (']' :: rest)).length + 1 := by
                have := dumpsElems_length_ge (y :: ys)
                simp only [List.length_append, List.length_cons] at this ⊢
                omega
              have hlobj : (dumps (JValue.arr (y :: ys))).length
                  = (dumpsElems (y :: ys)).length + 2 := by
                rw [show dumps (.arr (y :: ys))
                    = '[' :: (dumpsElems (y :: ys) ++ [']']) from rfl]
                simp
              have hlen2 : ∀ x ∈ y :: ys, (dumps x).length < n := by
                intro x hx
                have h1 := dumps_mem_elems_le (y :: ys) x hx
                omega
              have hwf2 : ∀ x ∈ y :: ys, wellFormed x = true :=
                wfList_mem (y :: ys) (by simpa [wellFormed] using hwf)
              have hmain := parseElemsWith_dumps n (y :: ys)
                ((dumpsElems (y :: ys) ++ (']' :: rest)).length + 1) rest []
                (by simp) hfuel (Or.inl rfl)
                (fun x hx r hr => ih x r (hlen2 x hx) (hwf2 x hx) hr)
              rw [List.nil_append] at hmain
              rw [hmain]
              rfl
      | obj kvs =>
          cases kvs with
          | nil => rfl
          | cons kv tl =>
              have hassoc : dumps (.obj (kv :: tl)) ++ rest
                  = '{' :: (dumpsEntries (kv :: tl) ++ ('}' :: rest)) := by
                rw [show dumps (.obj (kv :: tl))
                    = '{' :: (dumpsEntries (kv :: tl) ++ ['}']) from rfl]
                simp [List.append_assoc]
              rw [hassoc, parseValue_lbrace]
              obtain ⟨w0, hE⟩ := dumpsEntries_head (kv :: tl) (by simp)
              have hskip : skipWs (dumpsEntries (kv :: tl) ++ ('}' :: rest))
                  = '"' :: (w0 ++ ('}' :: rest)) := by
                rw [hE, List.cons_append]
                exact skipWs_cons_of_not '"' _ (by decide)
              have hhc : headChar '}'
                  (skipWs (dumpsEntries (kv :: tl) ++ ('}' :: rest)))
                  = false := by
                rw [hskip]
                rfl
              rw [if_neg (by simp [hhc])]
              have hwfE : wfEntries (kv :: tl) = true := by
                simpa [wellFormed] using hwf
              have hfuel : (kv :: tl).length
                  ≤ (dumpsEntries (kv :: tl) ++ ('}' :: rest)).length
                    + 1 := by
                have := dumpsEntries_length_ge (kv :: tl)
                simp only [List.length_append, List.length_cons] at this ⊢
                omega
              have hlobj : (dumps (JValue.obj (kv :: tl))).length
                  = (dumpsEntries (kv :: tl)).length + 2 := by
                rw [show dumps (.obj (kv :: tl))
                    = '{' :: (dumpsEntries (kv :: tl) ++ ['}']) from rfl]
                simp
              have hlen2 : ∀ kv2 ∈ kv :: tl, (dumps kv2.2).length < n := by
                intro kv2 h2
                have h1 := dumps_mem_entries_le (kv :: tl) kv2 h2
                omega
              have hwf2 : ∀ kv2 ∈ kv :: tl, wellFormed kv2.2 = true :=
                wfEntries_mem_val (kv :: tl) hwfE
              have hmain := parseMembersWith_dumps n (kv :: tl)
                ((dumpsEntries (kv :: tl) ++ ('}' :: rest)).length + 1)
                rest [] (by simp) hfuel (Or.inl rfl)
                (fun kv2 h2 r hr => ih kv2.2 r (hlen2 kv2 h2) (hwf2 kv2 h2) hr)
              rw [List.nil_append] at hmain
              rw [hmain, Option.some_bind, buildDict_wf (kv :: tl) hwfE]

theorem loads_dumps (v : JValue) (hwf : wellFormed v = true) :
    loads (dumps v) = some v := by
  have h := parseValue_dumps ((dumps v).length + 1) v []
    (by omega) hwf numBoundary_nil
  rw [List.append_nil] at h
  simp only [loads]
  rw [h]
  rfl


/-- Claim C9 (confirmed): a part carrying a `json` value is transformed into
`\x7btext: e\x7d` where `e` is the deterministic `json.dumps` encoding of the
value, and `json.loads` decodes `e` back to the original value structurally
(for values representable as Python data, i.e. every object already has
duplicate-free keys). -/
theorem claim_C9_json_roundtrip (up : UploadOracle) (p : PyDict) (v : JValue)
    (hget : dictGet p (S "json") = some v) (hwf : wellFormed v = true) :
    transformPart up (.obj p) = .ok (.obj [(S "text", .str (dumps v))]) ∧
    loads (dumps v) = some v := by
  constructor
  · simp only [transformPart, hget]
  · exact loads_dumps v hwf

/-- Claim C9 witness: the spec's example part `\x7b"json": \x7b"a": 1\x7d\x7d`
becomes the text part `\x7b"text": "\x7b\"a\": 1\x7d"\x7d`, and decoding that
text reproduces `\x7b"a": 1\x7d`. -/
theorem claim_C9_witness :
    transformPart (fun _ => Except.error ConformError.httpStatusError)
        (.obj [(S "json", JValue.obj [(S "a", JValue.num 1)])])
      = .ok (.obj [(S "text",
          .str (dumps (JValue.obj [(S "a", JValue.num 1)])))]) ∧
    loads (dumps (JValue.obj [(S "a", JValue.num 1)]))
      = some (JValue.obj [(S "a", JValue.num 1)]) :=
  claim_C9_json_roundtrip (fun _ => Except.error ConformError.httpStatusError)
    [(S "json", JValue.obj [(S "a", JValue.num 1)])]
    (JValue.obj [(S "a", JValue.num 1)]) rfl rfl

end Breadboard
